import Mathlib

set_option maxRecDepth 100000

/-!
Verification of the pagination-driven crawl-and-deduplicate pipeline of the
Scrapping repository.

The development shallowly embeds the Python code of
`src/14_linkedin_single_asset_scraper.py` (pagination-token normalization,
the pagination walker `scrape_search_pages`, ad-id extraction, detail-page
text cleaning and ad-type inference) and of
`src/9_linkedin_complete_scraper.py` (URL normalization, video base-path
computation, the deduplicating asset fetcher `_download_ad_assets_with_dedup`).

Strings are modelled as `List Char` (Python `len`/indexing is by code point,
which matches).  Python's `urllib.parse.urlparse` is modelled for ASCII
inputs, including its only exception path relevant here (the "Invalid IPv6
URL" ValueError on mismatched brackets in the netloc).  Python regular
expressions used by the code are fixed concrete patterns; each is embedded
as a deterministic scanner with the exact leftmost / greedy semantics the
pattern has under `re`.  External collaborators (HTTP transport, HTML
selector layer, the filesystem, `hashlib.md5`) are taken as parameters, as
the spec directs.
-/

namespace Scrapping

/-- Model of a Python `str`: a list of characters. -/
abbrev Str := List Char

/-- Coerce a Lean string literal into the model type. -/
def str (s : String) : Str := s.toList

/-! ## Generic string helpers (Python `in`, `str.lower`, digit runs) -/

/-- `isPrefixB n h` : does `n` occur at the start of `h`? -/
def isPrefixB : Str → Str → Bool
  | [], _ => true
  | _ :: _, [] => false
  | a :: as, b :: bs => a == b && isPrefixB as bs

/-- Python `n in h` for strings: contiguous-substring test. -/
def isInfixB (n : Str) (h : Str) : Bool :=
  match h with
  | [] => isPrefixB n []
  | _ :: t => isPrefixB n h || isInfixB n t

/-- Python `str.lower` (ASCII model; every string the code compares is ASCII). -/
def lowerStr (s : Str) : Str := s.map Char.toLower

/-- Value of a run of ASCII digits. -/
def digitsToNat (s : Str) : Nat := s.foldl (fun a c => a * 10 + (c.toNat - 48)) 0

/-! ## Python `int(str)` (used by `_normalize_pagination_token`)

`int` strips surrounding whitespace, accepts one optional sign and then a
nonempty digit sequence in which single underscores may separate digits
(`int("1_0") == 10`); anything else raises `ValueError`, modelled as `none`. -/

/-- ASCII whitespace stripped by Python `str.strip()`. -/
def isPyWs (c : Char) : Bool :=
  c == ' ' || c == '\t' || c == '\n' || c == '\r' || c == '\x0b' || c == '\x0c'

/-- Strip leading and trailing whitespace. -/
def pyStrip (s : Str) : Str :=
  ((s.dropWhile isPyWs).reverse.dropWhile isPyWs).reverse

/-- Digits possibly separated by single underscores, after the first digit. -/
def pyIntDigitsAux : Nat → Str → Option Nat
  | acc, [] => some acc
  | acc, '_' :: c :: rest =>
    if c.isDigit then pyIntDigitsAux (acc * 10 + (c.toNat - 48)) rest else none
  | _, ['_'] => none
  | acc, c :: rest =>
    if c.isDigit then pyIntDigitsAux (acc * 10 + (c.toNat - 48)) rest else none

/-- A nonempty digit sequence with optional single underscores between digits. -/
def pyIntDigits : Str → Option Nat
  | [] => none
  | c :: rest =>
    if c.isDigit then pyIntDigitsAux (c.toNat - 48) rest else none

/-- Python `int(s)` for `str` arguments (ASCII model); `none` = `ValueError`. -/
def pyInt (s : Str) : Option Int :=
  match pyStrip s with
  | '+' :: rest => (pyIntDigits rest).map Int.ofNat
  | '-' :: rest => (pyIntDigits rest).map (fun n => -(Int.ofNat n))
  | rest => (pyIntDigits rest).map Int.ofNat

/-! ## `_normalize_pagination_token` (src/14_linkedin_single_asset_scraper.py:80-91) -/

/-- Result of `_normalize_pagination_token`: either API mode carrying an
optional verbatim token, or offset mode carrying the parsed integer. -/
inductive TokMode where
  | api (tok : Option Str)
  | offset (n : Int)
  deriving DecidableEq, Repr

/-- `_normalize_pagination_token(token)`.  `if not token` is Python falsiness
(`None` or the empty string); `token.split('#')[0]` is the prefix before the
first `'#'`; a `ValueError` from `int` falls back to API mode with the whole
token. -/
def normalize_pagination_token (token : Option Str) : TokMode :=
  match token with
  | none => .api none
  | some t =>
    if t = [] then .api none
    else if t.contains '#' then
      match pyInt (t.takeWhile (· ≠ '#')) with
      | some n => .offset n
      | none => .api (some t)
    else .api (some t)

/-! ## Python `urllib.parse.urlparse` (ASCII model)

`_normalize_url` and `_get_video_base_path` in
`src/9_linkedin_complete_scraper.py` call `urlparse` inside `try/except`.
The model follows CPython's `urlsplit` for ASCII inputs: strip `\t\r\n`,
split a scheme (letter followed by letters/digits/`+-.` before the first
`:`), a `//`-introduced netloc (up to the first `/?#`), then the fragment at
the first `#` and the query at the first `?`; `urlparse` additionally splits
`;params` off the last path segment.  The one exception `urlparse` can raise
on such inputs — `ValueError("Invalid IPv6 URL")` when the netloc contains
`[` without `]` or vice versa — is modelled as `.error ()`. -/

/-- The components of a parsed URL. -/
structure UrlParts where
  scheme : Str
  netloc : Str
  path : Str
  query : Str
  fragment : Str
  deriving DecidableEq, Repr

/-- Characters allowed in a URL scheme. -/
def isSchemeChar (c : Char) : Bool :=
  c.isAlpha || c.isDigit || c == '+' || c == '-' || c == '.'

/-- CPython removes tab, CR and LF from the URL before parsing. -/
def removeUnsafe (s : Str) : Str :=
  s.filter (fun c => !(c == '\t' || c == '\r' || c == '\n'))

/-- `_splitparams`: drop `;params` from the last segment of the path. -/
def splitParams (p : Str) : Str :=
  if p.contains ';' then
    if p.contains '/' then
      let tailSeg := (p.reverse.takeWhile (· ≠ '/')).reverse
      if tailSeg.contains ';' then
        p.take (p.length - tailSeg.length) ++ tailSeg.takeWhile (· ≠ ';')
      else p
    else p.takeWhile (· ≠ ';')
  else p

/-- `urlparse` (ASCII model); `.error ()` models the `ValueError` raise. -/
def pyUrlparse (s : Str) : Except Unit UrlParts :=
  let url := removeUnsafe s
  let pre := url.takeWhile (· ≠ ':')
  let hasScheme : Bool :=
    url.contains ':' &&
      (match pre with
       | [] => false
       | c :: _ => c.isAlpha) && pre.all isSchemeChar
  let scheme : Str := if hasScheme then lowerStr pre else []
  let url1 : Str := if hasScheme then url.drop (pre.length + 1) else url
  let hasNetloc : Bool := isPrefixB (str "//") url1
  let netloc : Str :=
    if hasNetloc then (url1.drop 2).takeWhile (fun c => c ≠ '/' && c ≠ '?' && c ≠ '#')
    else []
  let url2 : Str := if hasNetloc then (url1.drop 2).drop netloc.length else url1
  if (netloc.contains '[' && !netloc.contains ']') ||
     (netloc.contains ']' && !netloc.contains '[') then
    .error ()
  else
    let beforeFrag := url2.takeWhile (· ≠ '#')
    let fragment := (url2.dropWhile (· ≠ '#')).drop 1
    let rawPath := beforeFrag.takeWhile (· ≠ '?')
    let query := (beforeFrag.dropWhile (· ≠ '?')).drop 1
    .ok ⟨scheme, netloc, splitParams rawPath, query, fragment⟩

/-! ## `_normalize_url` and `_get_video_base_path`
(src/9_linkedin_complete_scraper.py:73-99) -/

/-- `_normalize_url(url)`: scheme + netloc + path, raw URL on parse failure. -/
def normalize_url (url : Str) : Str :=
  match pyUrlparse url with
  | .ok p => p.scheme ++ str "://" ++ p.netloc ++ p.path
  | .error _ => url

/-- One leftmost match of `/mp4-\d+p-\d+fp-[^/]+/` at the head of `s`;
returns the remainder after the match.  `\d+` and `[^/]+` are maximal runs
(backtracking cannot shorten them, as the following literal is outside the
class), so the scanner is the exact `re` semantics of this pattern. -/
def matchPat1 (s : Str) : Option Str :=
  if isPrefixB (str "/mp4-") s then
    let r0 := s.drop 5
    let d1 := r0.takeWhile Char.isDigit
    if d1.isEmpty then none else
    let r1 := r0.drop d1.length
    if isPrefixB (str "p-") r1 then
      let r2 := r1.drop 2
      let d2 := r2.takeWhile Char.isDigit
      if d2.isEmpty then none else
      let r3 := r2.drop d2.length
      if isPrefixB (str "fp-") r3 then
        let r4 := r3.drop 3
        let x := r4.takeWhile (· ≠ '/')
        if x.isEmpty then none else
        let r5 := r4.drop x.length
        if isPrefixB (str "/") r5 then some (r5.drop 1) else none
      else none
    else none
  else none

/-- One leftmost match of `/mp4-\d+p/` at the head of `s`. -/
def matchPat2 (s : Str) : Option Str :=
  if isPrefixB (str "/mp4-") s then
    let r0 := s.drop 5
    let d := r0.takeWhile Char.isDigit
    if d.isEmpty then none else
    let r1 := r0.drop d.length
    if isPrefixB (str "p/") r1 then some (r1.drop 2) else none
  else none

/-- One leftmost match of `-\d+p-` at the head of `s`. -/
def matchPat3 (s : Str) : Option Str :=
  if isPrefixB (str "-") s then
    let r0 := s.drop 1
    let d := r0.takeWhile Char.isDigit
    if d.isEmpty then none else
    let r1 := r0.drop d.length
    if isPrefixB (str "p-") r1 then some (r1.drop 2) else none
  else none

/-- `re.sub` for one of the three patterns above with a one-character
replacement: scan left to right, replace non-overlapping matches, resume
after each match.  Every match consumes at least one character, so fuel
equal to the string length never runs out (the fuel-0 case is unreachable
from `reSub`). -/
def reSubFuel (m : Str → Option Str) (repl : Char) : Nat → Str → Str
  | 0, s => s
  | _ + 1, [] => []
  | n + 1, c :: rest =>
    match m (c :: rest) with
    | some r => repl :: reSubFuel m repl n r
    | none => c :: reSubFuel m repl n rest

/-- `re.sub(pattern, repl, s)` for the fixed patterns. -/
def reSub (m : Str → Option Str) (repl : Char) (s : Str) : Str :=
  reSubFuel m repl s.length s

/-- `_get_video_base_path(url)`: parse, strip the three quality patterns
from the path, return scheme + netloc + stripped path; on parse failure
fall back to `_normalize_url` (which, failing identically, returns the raw
URL). -/
def get_video_base_path (url : Str) : Str :=
  match pyUrlparse url with
  | .ok p =>
    p.scheme ++ str "://" ++ p.netloc ++
      reSub matchPat3 '-' (reSub matchPat2 '/' (reSub matchPat1 '/' p.path))
  | .error _ => normalize_url url

/-- `_is_duplicate_asset`'s identity key for each asset kind. -/
inductive AssetKind where
  | logo
  | image
  | video
  | poster
  deriving DecidableEq, Repr

/-- The identity a URL is deduplicated under for a given asset kind:
videos compare by `_get_video_base_path`, everything else by
`_normalize_url`. -/
def assetIdentity (kind : AssetKind) (url : Str) : Str :=
  match kind with
  | .video => get_video_base_path url
  | _ => normalize_url url

/-- `re.findall(r'(\d+)p', x)`: values of maximal digit runs that are
immediately followed by `p` (fuel = length, sufficient as each match
consumes at least two characters). -/
def qualNumsFuel : Nat → Str → List Nat
  | 0, _ => []
  | _ + 1, [] => []
  | n + 1, c :: rest =>
    if c.isDigit then
      let d := (c :: rest).takeWhile Char.isDigit
      match (c :: rest).drop d.length with
      | 'p' :: r2 => digitsToNat d :: qualNumsFuel n r2
      | _ => qualNumsFuel n rest
    else qualNumsFuel n rest

/-- All `(\d+)p` resolution markers found anywhere in the string. -/
def qualNums (s : Str) : List Nat := qualNumsFuel s.length s

/-- The sort key of `_download_ad_assets_with_dedup`'s video-quality `max`:
`max([int(m) for m in re.findall(r'(\d+)p', x)] + [0])`. -/
def qualKey (u : Str) : Nat := (qualNums u).foldl max 0

/-- Python `max(u :: us, key=qualKey)`: first element with the maximal key
(later elements replace the champion only on a strictly greater key). -/
def bestOf (u : Str) (us : List Str) : Str :=
  us.foldl (fun b x => if qualKey b < qualKey x then x else b) u

/-- The `parsed.path` a URL contributes to its identity (the raw URL when
parsing fails). -/
def urlPathOf (u : Str) : Str :=
  match pyUrlparse u with
  | .ok p => p.path
  | .error _ => u

/-- A character that can sit in the quality tail of an encoding-profile
path segment without affecting how the surrounding URL parses: not a path
separator, not a URL delimiter, not a character `urlsplit` strips. -/
def goodProfChar (c : Char) : Bool :=
  c ≠ '/' && c ≠ '#' && c ≠ '?' && c ≠ ';' && c ≠ '\t' && c ≠ '\r' && c ≠ '\n'

/-- The canonical rendition family of one logical video: resolution digits
`d`, frame-rate digits `m` and quality tail `x` embedded in an
encoding-profile segment `/mp4-<d>p-<m>fp-<x>/`. -/
def mkRendition (d m x : Str) : Str :=
  str "https://h/v/mp4-" ++ d ++ str "p-" ++ m ++ str "fp-" ++ x ++ str "/f.mp4"

/-- The path of `mkRendition d m x`. -/
def rendPath (d m x : Str) : Str :=
  str "/v/mp4-" ++ d ++ str "p-" ++ m ++ str "fp-" ++ x ++ str "/f.mp4"

/-! ## `extract_ad_ids_from_html` (src/14_linkedin_single_asset_scraper.py:365-377) -/

/-- One match of `/ad-library/detail/(\d+)` at the head of `s`: the literal
prefix followed by a maximal nonempty digit run; returns the captured digits
and the remainder after the match. -/
def matchDetail (s : Str) : Option (Str × Str) :=
  if isPrefixB (str "/ad-library/detail/") s then
    let rest := s.drop 19
    let d := rest.takeWhile Char.isDigit
    if d = [] then none else some (d, rest.drop d.length)
  else none

/-- `re.findall(r'/ad-library/detail/(\d+)', html)`: leftmost,
non-overlapping (fuel = length; every match consumes ≥ 20 characters). -/
def findDetailIdsFuel : Nat → Str → List Str
  | 0, _ => []
  | _ + 1, [] => []
  | n + 1, c :: rest =>
    match matchDetail (c :: rest) with
    | some (d, r) => d :: findDetailIdsFuel n r
    | none => findDetailIdsFuel n rest

/-- All captured ad ids, in match order. -/
def findDetailIds (html : Str) : List Str := findDetailIdsFuel html.length html

/-- First-seen-order deduplication starting from an already-kept prefix
(the source keeps a `seen` set alongside the output list; membership in the
two is identical at every step, so the fold tests the output list). -/
def dedupFrom (acc : List Str) (l : List Str) : List Str :=
  l.foldl (fun a x => if x ∈ a then a else a ++ [x]) acc

/-- `extract_ad_ids_from_html(html)`: matches deduplicated in first-seen
order within the page. -/
def extract_ad_ids_from_html (html : Str) : List Str :=
  dedupFrom [] (findDetailIds html)

/-! ## The pagination walker `scrape_search_pages`
(src/14_linkedin_single_asset_scraper.py:378-475) -/

/-- The per-page accumulation loop of `scrape_search_pages`:
`for ad_id in ad_ids: if len(all) >= max: break; if ad_id not in all: append`. -/
def addPageIds (acc : List Str) (ids : List Str) (maxRes : Nat) : List Str :=
  match ids with
  | [] => acc
  | a :: rest =>
    if maxRes ≤ acc.length then acc
    else if a ∈ acc then addPageIds acc rest maxRes
    else addPageIds (acc ++ [a]) rest maxRes

/-- The walker's accumulation over a whole sequence of pages: the inner
loop of `scrape_search_pages` applied page by page to an initially empty
id list. -/
def accumulatePages (pages : List (List Str)) (maxRes : Nat) : List Str :=
  pages.foldl (fun acc p => addPageIds acc p maxRes) []

/-- What one fetch of the listing endpoint yields: `data.get("html", "")`
and `data.get("paginationToken")` (where `none` models both an absent key
and JSON `null`, and `some []` models an empty-string token). -/
structure PageData where
  html : Str
  token : Option Str

/-- Python truthiness of an optional string. -/
def optTruthy : Option Str → Bool
  | some (_ :: _) => true
  | _ => false

/-- Python falsiness of an optional string (`not data.get("paginationToken")`). -/
def optFalsy (t : Option Str) : Bool := !optTruthy t

/-- The outcome of one iteration of the `while` loop of
`scrape_search_pages`: stop before fetching (seen-token loop guard), stop
after fetching with the accumulated ids so far, or continue with the new
ids, the next token and the grown seen-token set. -/
inductive StepRes where
  | stopNoFetch
  | stopFetched (accN : List Str)
  | cont (accN : List Str) (next : Option Str) (seen' : List Str)
  deriving DecidableEq

/-- One iteration of the loop body of `scrape_search_pages`, in source
order: the seen-token loop guard, adding a truthy token to `seen_tokens`,
the mode dispatch and fetch, the empty-body check, ad-id extraction,
accumulation with the no-new-ads guard, the returned-token-equals-current
guard and the falsy-next-token check.  The deterministic listing endpoint
is abstracted as `endpoint : TokMode → Option PageData` (a `none` result
models a failed fetch). -/
def walkStep (endpoint : TokMode → Option PageData) (maxRes : Nat)
    (token : Option Str) (seen : List Str) (acc : List Str) : StepRes :=
  let stopSeen : Bool :=
    match token with
    | some t => !t.isEmpty && seen.contains t
    | none => false
  if stopSeen then .stopNoFetch
  else
    let seen' : List Str :=
      match token with
      | some t => if t.isEmpty then seen else t :: seen
      | none => seen
    match endpoint (normalize_pagination_token token) with
    | none => .stopFetched acc
    | some page =>
      if page.html.isEmpty then .stopFetched acc
      else
        let ids := extract_ad_ids_from_html page.html
        let step : Bool × List Str :=
          if ids.isEmpty then (optFalsy page.token, acc)
          else
            let acc' := addPageIds acc ids maxRes
            (acc'.length == acc.length && optTruthy token, acc')
        match step with
        | (stop, accN) =>
          if stop then .stopFetched accN
          else if page.token == token then .stopFetched accN
          else if optFalsy page.token then .stopFetched accN
          else .cont accN page.token seen'

/-- The `while len(all_ad_ids) < max_results` loop of
`scrape_search_pages`.  Returns the accumulated ids and the trace of tokens
passed to fetch calls, in order.  The `fuel` argument only makes the
recursion structural: the walker is started with fuel 101 and its own
`page_num > 100` safety break fires strictly before the fuel can reach 0. -/
def walkAux (endpoint : TokMode → Option PageData) (maxRes : Nat) :
    Nat → Option Str → List Str → List Str → Nat → List Str × List (Option Str)
  | 0, _, _, acc, _ => (acc, [])
  | fuel + 1, token, seen, acc, pageNum =>
    if maxRes ≤ acc.length then (acc, [])
    else
      match walkStep endpoint maxRes token seen acc with
      | .stopNoFetch => (acc, [])
      | .stopFetched accN => (accN, [token])
      | .cont accN next seen' =>
        if 100 < pageNum + 1 then (accN, [token])
        else
          let r := walkAux endpoint maxRes fuel next seen' accN (pageNum + 1)
          (r.1, token :: r.2)

/-- `scrape_search_pages(account_owner, max_results, delay)` against a
deterministic endpoint: the accumulated ad ids and the fetch-input trace. -/
def scrape_search_pages (endpoint : TokMode → Option PageData) (maxRes : Nat) :
    List Str × List (Option Str) :=
  walkAux endpoint maxRes 101 none [] [] 1

/-! ### Deterministic mock endpoints used in the theorems -/

/-- Decimal string of a natural number. -/
def natStr (n : Nat) : Str := (Nat.repr n).toList

/-- One listing-page detail link for ad id `n`. -/
def detailLink (n : Nat) : Str := str "/ad-library/detail/" ++ natStr n ++ str " "

/-- A mock listing-page body with the given ad ids. -/
def linksHtml (ns : List Nat) : Str := (ns.map detailLink).flatten

/-- A benign two-page mock endpoint: page 1 has ads 1-12 and a continuation
token, page 2 has ads 13-20 and no token. -/
def mockBenign : TokMode → Option PageData
  | .api none => some ⟨linksHtml (List.range' 1 12), some (str "tokB")⟩
  | .api (some t) =>
    if t = str "tokB" then some ⟨linksHtml (List.range' 13 8), none⟩ else none
  | .offset _ => none

/-- A mock endpoint whose pages carry three ads each but only one fresh ad
from page 2 on: page 1 yields ads 1,2,3 and token "1"; the page for token
`k` yields ads 1,2,k+3 and token `k+1`. -/
def mockDup : TokMode → Option PageData
  | .api none => some ⟨linksHtml [1, 2, 3], some (str "1")⟩
  | .api (some t) =>
    let k := digitsToNat t
    if 1 ≤ k ∧ k ≤ 20 then some ⟨linksHtml [1, 2, k + 3], some (natStr (k + 1))⟩
    else none
  | .offset _ => none

/-! ## Detail-page text cleaning
(src/14_linkedin_single_asset_scraper.py:544-573) -/

/-- The boilerplate denylist of `scrape_ad_detail_with_bs4`. -/
def denylist : List Str :=
  [str "cookie", str "privacy", str "policy", str "about",
   str "linkedin corporation", str "please note",
   str "terms of service", str "ad details",
   str "view details", str "see more", str "…see more",
   str "sign in", str "sign up", str "join now"]

/-- `any(skip in text.lower() for skip in [...])`. -/
def boilerplate (t : Str) : Bool :=
  denylist.any (fun sk => isInfixB sk (lowerStr t))

/-- One step of the first pass: keep a candidate text iff it is truthy,
strictly inside the 10..2000 length window, not an exact repeat of an
earlier kept text (`seen_texts`) and not boilerplate. -/
def textFilterStep (acc : List Str) (t : Str) : List Str :=
  if !t.isEmpty && decide (10 < t.length) && decide (t.length < 2000) &&
      !acc.contains t && !boilerplate t
  then acc ++ [t] else acc

/-- First pass over the candidate texts, in scan order. -/
def textFilter (texts : List Str) : List Str :=
  texts.foldl textFilterStep []

/-- One step of the second pass: drop any candidate that is a substring of,
or contains, an already-kept candidate. -/
def dropStep (kept : List Str) (t : Str) : List Str :=
  if kept.any (fun e => isInfixB t e || isInfixB e t) then kept
  else kept ++ [t]

/-- Second pass: near-duplicate suppression. -/
def dropNearDups (parts : List Str) : List Str :=
  parts.foldl dropStep []

/-- The text blocks that survive cleaning and enter
`"\n\n".join(unique_texts[:5])`, in order. -/
def clean_ad_texts (texts : List Str) : List Str :=
  (dropNearDups (textFilter texts)).take 5

/-! ## Ad-type extraction of `scrape_ad_detail_with_bs4`
(src/14_linkedin_single_asset_scraper.py:575-595 and 630-631) -/

/-- Case-insensitive literal prefix test (`re.IGNORECASE`, ASCII model). -/
def ciPrefix (n s : Str) : Bool := isPrefixB (lowerStr n) (lowerStr s)

/-- The ordered alternatives of
`r'(Video Ad|Image Ad|Carousel Ad|Single Image Ad|Sponsored Content)'`. -/
def adTypeAlts : List Str :=
  [str "Video Ad", str "Image Ad", str "Carousel Ad",
   str "Single Image Ad", str "Sponsored Content"]

/-- A match of the alternation at this position: the first alternative that
matches, returned in the page's original casing (`match.group(1)`). -/
def pat1At (s : Str) : Option Str :=
  (adTypeAlts.find? (fun alt => ciPrefix alt s)).map (fun alt => s.take alt.length)

/-- `[:\s]` of `r'Ad Type[:\s]+(\w+)'`. -/
def isSepChar (c : Char) : Bool := c == ':' || isPyWs c

/-- `\w` (ASCII model). -/
def isWordChar (c : Char) : Bool := c.isAlphanum || c == '_'

/-- A match of `Ad Type[:\s]+(\w+)` at this position (greedy runs; the
following classes are disjoint, so backtracking cannot shorten them). -/
def pat2At (s : Str) : Option Str :=
  if ciPrefix (str "Ad Type") s then
    let rest := s.drop 7
    let seps := rest.takeWhile isSepChar
    if seps = [] then none
    else
      let w := (rest.drop seps.length).takeWhile isWordChar
      if w = [] then none else some w
  else none

/-- A match of `type["\']?\s*[:=]\s*["\']([^"\']+)` at this position.  The
optional quote is greedy: consuming it is tried first, skipping it second. -/
def pat3At (s : Str) : Option Str :=
  if ciPrefix (str "type") s then
    let rest := s.drop 4
    let tryFrom : Str → Option Str := fun r =>
      match r.dropWhile isPyWs with
      | c :: r2 =>
        if c == ':' || c == '=' then
          match r2.dropWhile isPyWs with
          | q :: r4 =>
            if q == '"' || q == '\'' then
              let cap := r4.takeWhile (fun c2 => c2 ≠ '"' && c2 ≠ '\'')
              if cap = [] then none else some cap
            else none
          | [] => none
        else none
      | [] => none
    match rest with
    | q :: rest2 =>
      if q == '"' || q == '\'' then
        match tryFrom rest2 with
        | some cap => some cap
        | none => tryFrom rest
      else tryFrom rest
    | [] => tryFrom rest
  else none

/-- `re.search`: try a position match at every index, leftmost first. -/
def searchWith (f : Str → Option Str) : Str → Option Str
  | [] => f []
  | c :: rest =>
    match f (c :: rest) with
    | some g => some g
    | none => searchWith f rest

/-- The `for pattern in ad_type_patterns: re.search(...)` cascade. -/
def adTypeSearch (pageText : Str) : Option Str :=
  match searchWith pat1At pageText with
  | some g => some g
  | none =>
    match searchWith pat2At pageText with
    | some g => some g
    | none => searchWith pat3At pageText

/-- The asset-url bundle of an `ad_detail` record. -/
structure AssetsRec where
  images : List Str
  videos : List Str
  posters : List Str
  deriving DecidableEq, Repr

/-- The `ad_type`/`assets` slice of the `ad_detail` record. -/
structure AdDetailSlice where
  ad_type : Option Str
  assets : AssetsRec
  deriving DecidableEq, Repr

/-- The asset-shape fallback block (lines 589-595): `has video → "Video Ad";
>1 image → "Carousel Ad"; 1 image → "Image Ad"; else leave absent`. -/
def inferAdTypeFromAssets (a : AssetsRec) : Option Str :=
  if !a.videos.isEmpty then some (str "Video Ad")
  else if 1 < a.images.length then some (str "Carousel Ad")
  else if !a.images.isEmpty then some (str "Image Ad")
  else none

/-- The ad-type / assets portion of `scrape_ad_detail_with_bs4`, in source
order: the record starts with empty asset lists (lines 497-505); the marker
cascade runs on the page text (575-587); the fallback block reads
`ad_detail["assets"]` — still the initial empty lists — at lines 589-595;
only later (630-631) is `ad_detail["assets"]` overwritten with the assets
extracted from the page by `_extract_assets_with_bs4`. -/
def scrape_ad_detail_slice (pageText : Str) (extracted : AssetsRec) : AdDetailSlice :=
  let d0 : AdDetailSlice := ⟨none, ⟨[], [], []⟩⟩
  let d1 : AdDetailSlice := { d0 with ad_type := adTypeSearch pageText }
  let d2 : AdDetailSlice :=
    if d1.ad_type = none then { d1 with ad_type := inferAdTypeFromAssets d1.assets }
    else d1
  { d2 with assets := extracted }

/-! ## The deduplicating asset fetcher
(`_download_ad_assets_with_dedup`, src/9_linkedin_complete_scraper.py:656-744,
together with `_is_duplicate_asset` 101-124 and `_generate_filename` 617-632)

`self.seen_assets` is four insertion-ordered dicts (identity key → local
path).  `_download_asset` (HTTP HEAD + GET + file write) is an external
collaborator, modelled by a deterministic success oracle `Str → Bool`;
`hashlib.md5` is modelled by a hash parameter `md5hex`. -/

/-- The process-lifetime `seen_assets` cache: one insertion-ordered dict per
asset kind. -/
structure SeenAssets where
  logos : List (Str × Str)
  images : List (Str × Str)
  videos : List (Str × Str)
  posters : List (Str × Str)
  deriving DecidableEq, Repr

/-- Python `d.get(k)` on an insertion-ordered dict. -/
def dictGet (d : List (Str × Str)) (k : Str) : Option Str :=
  match d.find? (fun kv => kv.1 == k) with
  | some kv => some kv.2
  | none => none

/-- Python `d[k] = v`: replace in place if present, else append. -/
def dictSet (d : List (Str × Str)) (k v : Str) : List (Str × Str) :=
  match d with
  | [] => [(k, v)]
  | kv :: rest => if kv.1 == k then (k, v) :: rest else kv :: dictSet rest k v

/-- POSIX `os.path.join` for one component. -/
def joinPath (a b : Str) : Str :=
  if b.head? = some '/' then b
  else if a.isEmpty then b
  else if a.getLast? = some '/' then a ++ b
  else a ++ str "/" ++ b

/-- Path components of `path.split('/')`. -/
def splitOnChar (c : Char) : Str → List Str
  | [] => [[]]
  | a :: rest =>
    match splitOnChar c rest with
    | [] => [[]]
    | h :: t => if a == c then [] :: h :: t else (a :: h) :: t

/-- `[p for p in path.split('/') if p and p not in ['dms','image','v2','playlist','vid']]`. -/
def pathParts (path : Str) : List Str :=
  (splitOnChar '/' path).filter
    (fun p =>
      !p.isEmpty &&
        !([str "dms", str "image", str "v2", str "playlist", str "vid"].contains p))

/-- `re.sub(r'[^a-zA-Z0-9_-]', '_', ·)`, character by character. -/
def sanitizeChar (c : Char) : Char :=
  if c.isAlphanum || c == '_' || c == '-' then c else '_'

/-- `_get_file_extension(url)` with its default `content_type=None` (the
content-type branch is skipped).  The source calls `urlparse` unguarded
here; the claims never reach this with an unparsable URL, whose path is
modelled as empty. -/
def get_file_extension (url : Str) : Str :=
  let pathL : Str := match pyUrlparse url with | .ok p => lowerStr p.path | .error _ => []
  if isInfixB (str ".jpg") pathL || isInfixB (str ".jpeg") pathL then str ".jpg"
  else if isInfixB (str ".png") pathL then str ".png"
  else if isInfixB (str ".gif") pathL then str ".gif"
  else if isInfixB (str ".webp") pathL then str ".webp"
  else if isInfixB (str ".mp4") pathL then str ".mp4"
  else if isInfixB (str ".webm") pathL then str ".webm"
  else if isInfixB (str ".mov") pathL then str ".mov"
  else
    let ul := lowerStr url
    if isInfixB (str "video") ul || isInfixB (str "playlist") ul then str ".mp4"
    else if isInfixB (str "logo") ul || isInfixB (str "image") ul then str ".jpg"
    else str ".bin"

/-- `_generate_filename(url, asset_type, ad_id, index)`; `md5hex` models
`hashlib.md5(url.encode()).hexdigest()`. -/
def generate_filename (md5hex : Str → Str) (url kind adId : Str) (index : Nat) : Str :=
  let path : Str := match pyUrlparse url with | .ok p => p.path | .error _ => []
  let parts := pathParts path
  let base : Str :=
    match parts.getLast? with
    | some last => (last.map sanitizeChar).take 50
    | none => kind ++ str "_" ++ (md5hex url).take 8
  adId ++ str "_" ++ base ++ str "_" ++ natStr index ++ get_file_extension url

/-- The record returned by `_download_ad_assets_with_dedup`. -/
structure Downloaded where
  logo : Option Str
  images : List Str
  videos : List Str
  posters : List Str
  deriving DecidableEq, Repr

/-- The local path a downloaded asset is written to:
`os.path.join(ad_dir, subdir, filename)`. -/
def assetPath (gen : Str → Str → Str → Nat → Str) (adDir subdir kind adId u : Str)
    (i : Nat) : Str :=
  joinPath (joinPath adDir subdir) (gen u kind adId i)

/-- One image/poster candidate: `_is_duplicate_asset` (lookup under
`_normalize_url`), reuse a truthy cached path, otherwise attempt a download
(counted) and register the path on success.  `i` is the 1-based `enumerate`
index used for the filename. -/
def flatStep (gen : Str → Str → Str → Nat → Str) (oracle : Str → Bool)
    (adId adDir subdir kind : Str) (m : List (Str × Str)) (u : Str) (i : Nat) :
    Option Str × List (Str × Str) × Nat :=
  let key := normalize_url u
  let attempt : Option Str × List (Str × Str) × Nat :=
    let path := assetPath gen adDir subdir kind adId u i
    if oracle u then (some path, dictSet m key path, 1) else (none, m, 1)
  match dictGet m key with
  | some p => if p.isEmpty then attempt else (some p, m, 0)
  | none => attempt

/-- The image/poster download loop over one kind's dict. -/
def procFlat (gen : Str → Str → Str → Nat → Str) (oracle : Str → Bool)
    (adId adDir subdir kind : Str) :
    List (Str × Str) → List Str → Nat → List Str × List (Str × Str) × Nat
  | m, [], _ => ([], m, 0)
  | m, u :: us, i =>
    match flatStep gen oracle adId adDir subdir kind m u i with
    | (r, m1, k) =>
      match procFlat gen oracle adId adDir subdir kind m1 us (i + 1) with
      | (outs, m2, n) =>
        ((match r with | some p => p :: outs | none => outs), m2, k + n)

/-- Append a URL to its base-path group (groups kept in insertion order,
each group holding its first URL and the rest in order). -/
def addToGroups (gs : List (Str × Str × List Str)) (base u : Str) :
    List (Str × Str × List Str) :=
  match gs with
  | [] => [(base, u, [])]
  | (b, f, rest) :: t =>
    if b == base then (b, f, rest ++ [u]) :: t
    else (b, f, rest) :: addToGroups t base u

/-- `video_groups`: group the discovered video URLs by
`_get_video_base_path`. -/
def buildGroups (urls : List Str) : List (Str × Str × List Str) :=
  urls.foldl (fun gs u => addToGroups gs (get_video_base_path u) u) []

/-- One video group: `_is_duplicate_asset(video_urls[0])` (lookup under the
recomputed base path of the group's first URL), reuse a truthy cached path,
else download the `best_of` URL of the group, register it under the group's
base path on success.  `j` is `len(downloaded["videos"])` so far (both
reuses and downloads append). -/
def videoStep (gen : Str → Str → Str → Nat → Str) (oracle : Str → Bool)
    (adId adDir : Str) (m : List (Str × Str)) (g : Str × Str × List Str)
    (j : Nat) : Option Str × List (Str × Str) × Nat :=
  let attempt : Option Str × List (Str × Str) × Nat :=
    let best := bestOf g.2.1 g.2.2
    let path := assetPath gen adDir (str "videos") (str "video") adId best (j + 1)
    if oracle best then (some path, dictSet m g.1 path, 1) else (none, m, 1)
  match dictGet m (get_video_base_path g.2.1) with
  | some p => if p.isEmpty then attempt else (some p, m, 0)
  | none => attempt

/-- The video download loop over the groups. -/
def procVideos (gen : Str → Str → Str → Nat → Str) (oracle : Str → Bool)
    (adId adDir : Str) :
    List (Str × Str) → List (Str × Str × List Str) → Nat →
      List Str × List (Str × Str) × Nat
  | m, [], _ => ([], m, 0)
  | m, g :: gs, j =>
    match videoStep gen oracle adId adDir m g j with
    | (r, m1, k) =>
      let j' := match r with | some _ => j + 1 | none => j
      match procVideos gen oracle adId adDir m1 gs j' with
      | (outs, m2, n) =>
        ((match r with | some p => p :: outs | none => outs), m2, k + n)

/-- The logo branch of `_download_ad_assets_with_dedup`: truthy logo URL,
`_is_duplicate_asset(logo_url, "logo")`, reuse or download-and-register. -/
def logoPhase (gen : Str → Str → Str → Nat → Str) (oracle : Str → Bool)
    (adId adDir : Str) (logoUrl : Option Str) (s : SeenAssets) :
    Option Str × SeenAssets × Nat :=
  match logoUrl with
  | some lu =>
    if lu.isEmpty then (none, s, 0)
    else
      let key := normalize_url lu
      let attempt : Option Str × SeenAssets × Nat :=
        let path := assetPath gen adDir (str "logo") (str "logo") adId lu 0
        if oracle lu then
          (some path, { s with logos := dictSet s.logos key path }, 1)
        else (none, s, 1)
      match dictGet s.logos key with
      | some p => if p.isEmpty then attempt else (some p, s, 0)
      | none => attempt
  | none => (none, s, 0)

/-- `_download_ad_assets_with_dedup(ad_id, logo_url, assets, output_dir)`
against cache state `s`: the downloaded-paths record, the new cache state,
and the number of download attempts performed. -/
def materialize (gen : Str → Str → Str → Nat → Str) (oracle : Str → Bool)
    (adId : Str) (logoUrl : Option Str) (assets : AssetsRec) (outputDir : Str)
    (s : SeenAssets) : Downloaded × SeenAssets × Nat :=
  let adDir := joinPath outputDir adId
  match logoPhase gen oracle adId adDir logoUrl s with
  | (lg, s1, n1) =>
    match procFlat gen oracle adId adDir (str "images") (str "image") s1.images assets.images 1 with
    | (imgs, imap, n2) =>
      let s2 := { s1 with images := imap }
      match procVideos gen oracle adId adDir s2.videos (buildGroups assets.videos) 0 with
      | (vids, vmap, n3) =>
        let s3 := { s2 with videos := vmap }
        match procFlat gen oracle adId adDir (str "posters") (str "poster") s3.posters assets.posters 1 with
        | (posts, pmap, n4) =>
          let s4 := { s3 with posters := pmap }
          (⟨lg, imgs, vids, posts⟩, s4, n1 + n2 + n3 + n4)

/-- The empty cache a fresh scraper process starts with. -/
def emptySeen : SeenAssets := ⟨[], [], [], []⟩

/-- A concrete stand-in for `hashlib.md5(...).hexdigest()` used in closed
evaluations (any function works for the theorems, which quantify over it). -/
def md5stub : Str → Str := fun _ => str "0123456789abcdef0123456789abcdef"

end Scrapping

namespace Scrapping

/-- C10 sanity example: offset-form token. -/
example : normalize_pagination_token (some (str "12#25")) = .offset 12 := by decide

example : normalize_pagination_token (some (str "abc")) = .api (some (str "abc")) := by decide

example : normalize_pagination_token (some (str "ab#1")) = .api (some (str "ab#1")) := by decide

example : normalize_pagination_token (some (str "-3#x")) = .offset (-3) := by decide

example : normalize_pagination_token (some (str "")) = .api none := by decide

example : normalize_url (str "https://a.b/c/d.png?x=1#f") = str "https://a.b/c/d.png" := by decide

example : normalize_url (str "http://[oops/x") = str "http://[oops/x" := by decide

example :
    get_video_base_path (str "https://h/a/mp4-720p-30fp-crf28/v.mp4?q=2") =
      str "https://h/a/v.mp4" := by decide

example :
    get_video_base_path (str "https://h/a/mp4-360p/v.mp4") = str "https://h/a/v.mp4" := by
  decide

example : qualKey (str "https://h/a/mp4-360p-30fp-crf28/v.mp4?x=1080p") = 1080 := by decide

example :
    bestOf (str "https://h/a/mp4-720p-30fp-crf28/v.mp4")
        [str "https://h/a/mp4-360p-30fp-crf28/v.mp4?x=1080p"] =
      str "https://h/a/mp4-360p-30fp-crf28/v.mp4?x=1080p" := by decide

example :
    extract_ad_ids_from_html (str "x /ad-library/detail/12 /ad-library/detail/9 /ad-library/detail/12 ") =
      [str "12", str "9"] := by decide

example : (scrape_search_pages mockBenign 15).1.length = 15 := by decide

example : (scrape_search_pages mockBenign 15).2 = [none, some (str "tokB")] := by decide

example : (scrape_search_pages mockDup 12).2.length = 10 := by decide

example : (scrape_search_pages mockDup 12).1.length = 12 := by decide

example :
    clean_ad_texts [str "Buy now", str "Buy now today", str "Cookie policy applies"] =
      [str "Buy now today"] := by decide

example : adTypeSearch (str "some viDEo aD here") = some (str "viDEo aD") := by decide

example : adTypeSearch (str "Ad Type: Carousel!") = some (str "Carousel") := by decide

example : adTypeSearch (str "\"type\": \"SPONSORED\"") = some (str "SPONSORED") := by decide

example : adTypeSearch (str "nothing of note") = none := by decide

example :
    scrape_ad_detail_slice (str "nothing of note") ⟨[], [str "https://v/1.mp4"], []⟩ =
      ⟨none, ⟨[], [str "https://v/1.mp4"], []⟩⟩ := by decide

example :
    generate_filename md5stub (str "https://c.dn/dms/a-b.c!d.jpg?x=1") (str "image")
        (str "77") 2 =
      str "77_a-b_c_d_jpg_2.jpg" := by decide

example :
    (materialize (generate_filename md5stub) (fun _ => true) (str "7") none
        ⟨[str "https://c/i.png"], [], []⟩ (str "out") emptySeen).2.2 = 1 := by decide

example :
    (let r1 := materialize (generate_filename md5stub) (fun _ => true) (str "7") none
        ⟨[str "https://c/i.png"], [str "https://h/a/mp4-360p-30fp-crf28/v.mp4",
          str "https://h/a/mp4-720p-30fp-crf28/v.mp4"], []⟩ (str "out") emptySeen
     let r2 := materialize (generate_filename md5stub) (fun _ => true) (str "7") none
        ⟨[str "https://c/i.png"], [str "https://h/a/mp4-360p-30fp-crf28/v.mp4",
          str "https://h/a/mp4-720p-30fp-crf28/v.mp4"], []⟩ (str "out") r1.2.1
     r2.2.2 = 0 ∧ r2.1 = r1.1 ∧ r1.2.2 = 2) := by decide

/-! ## Claim theorems -/

/-- C10: `_normalize_pagination_token` is total and falls back safely: a
`None` or empty token yields API mode with no value; a token containing `#`
whose prefix before the first `#` parses as a Python integer yields offset
mode with that integer; a token containing `#` whose prefix does not parse
yields API mode with the whole token verbatim; no input raises (the model
is a total function and the only fallible step, `int(...)`, is matched on
both outcomes). -/
theorem C10_normalize_pagination_token :
    normalize_pagination_token none = .api none ∧
    normalize_pagination_token (some []) = .api none ∧
    (∀ (t : Str) (n : Int), '#' ∈ t → pyInt (t.takeWhile (· ≠ '#')) = some n →
      normalize_pagination_token (some t) = .offset n) ∧
    (∀ t : Str, '#' ∈ t → pyInt (t.takeWhile (· ≠ '#')) = none →
      normalize_pagination_token (some t) = .api (some t)) := by
  refine ⟨rfl, rfl, ?_, ?_⟩
  · intro t n hm hp
    have hc : t.contains '#' = true := by simpa using hm
    have ht : ¬ t = [] := by rintro rfl; simp at hm
    simp only [normalize_pagination_token]
    rw [if_neg ht, hc, if_pos rfl, hp]
  · intro t hm hp
    have hc : t.contains '#' = true := by simpa using hm
    have ht : ¬ t = [] := by rintro rfl; simp at hm
    simp only [normalize_pagination_token]
    rw [if_neg ht, hc, if_pos rfl, hp]

/-- Witness for C10 at concrete tokens: `"12#25"` is offset mode with 12,
`"ab#1"` (non-integer prefix) falls back to API mode verbatim. -/
theorem C10_witness :
    normalize_pagination_token (some (str "12#25")) = .offset 12 ∧
    normalize_pagination_token (some (str "ab#1")) = .api (some (str "ab#1")) := by
  constructor
  · exact C10_normalize_pagination_token.2.2.1 (str "12#25") 12 (by decide) (by decide)
  · exact C10_normalize_pagination_token.2.2.2 (str "ab#1") (by decide) (by decide)

/-- C4: for every non-video asset kind, the identity of a URL is
scheme + host + path, so two parsable URLs differing only in query string
and/or fragment (same scheme, netloc and path) have equal identities. -/
theorem C4_nonvideo_identity_query_fragment_invariant :
    ∀ (u1 u2 : Str) (kind : AssetKind) (p1 p2 : UrlParts),
      kind ≠ .video →
      pyUrlparse u1 = .ok p1 → pyUrlparse u2 = .ok p2 →
      p1.scheme = p2.scheme → p1.netloc = p2.netloc → p1.path = p2.path →
      assetIdentity kind u1 = assetIdentity kind u2 ∧
      assetIdentity kind u1 = p1.scheme ++ str "://" ++ p1.netloc ++ p1.path := by
  intro u1 u2 kind p1 p2 hk h1 h2 hs hn hp
  have hid : ∀ u, assetIdentity kind u = normalize_url u := by
    intro u
    cases kind with
    | video => exact absurd rfl hk
    | logo => rfl
    | image => rfl
    | poster => rfl
  rw [hid, hid]
  constructor
  · simp only [normalize_url, h1, h2, hs, hn, hp]
  · simp only [normalize_url, h1]

/-- Witness for C4: two image URLs differing only in query and fragment
share the identity `https://cdn.x.com/img/a.png`. -/
theorem C4_witness :
    assetIdentity .image (str "https://cdn.x.com/img/a.png?sig=1") =
        assetIdentity .image (str "https://cdn.x.com/img/a.png?sig=2#frag") ∧
    assetIdentity .image (str "https://cdn.x.com/img/a.png?sig=1") =
        str "https" ++ str "://" ++ str "cdn.x.com" ++ str "/img/a.png" :=
  C4_nonvideo_identity_query_fragment_invariant
    (str "https://cdn.x.com/img/a.png?sig=1")
    (str "https://cdn.x.com/img/a.png?sig=2#frag") .image
    ⟨str "https", str "cdn.x.com", str "/img/a.png", str "sig=1", []⟩
    ⟨str "https", str "cdn.x.com", str "/img/a.png", str "sig=2", str "frag"⟩
    (by decide) rfl rfl rfl rfl rfl

/-- C7: the identity functions fail closed — they are total functions (no
exception escapes: the `urlparse` call is the only raising operation and
both `_normalize_url` and `_get_video_base_path` catch it), and when
parsing fails they return the raw URL as its own identity, for every asset
kind. -/
theorem C7_identity_fails_closed :
    ∀ (url : Str) (kind : AssetKind),
      pyUrlparse url = .error () → assetIdentity kind url = url := by
  intro url kind h
  cases kind <;>
    simp [assetIdentity, normalize_url, get_video_base_path, h]

/-- Witness for C7: a URL `urlparse` rejects (unmatched `[` in the netloc)
is its own identity for both a video and an image. -/
theorem C7_witness :
    assetIdentity .video (str "http://[oops/x") = str "http://[oops/x" ∧
    assetIdentity .image (str "http://[oops/x") = str "http://[oops/x" :=
  ⟨C7_identity_fails_closed (str "http://[oops/x") .video rfl,
   C7_identity_fails_closed (str "http://[oops/x") .image rfl⟩

/-- C3 counterexample: two renditions share one identity
(`https://h/a/v.mp4`), the second has the smaller resolution marker in its
*path* (360 < 720), yet best-of selection picks it, because the code takes
the maximum over `(\d+)p` matches in the whole URL string and the second
URL carries `1080p` in its query string.  This falsifies "best-of picks the
URL whose path contains the numerically largest resolution marker". -/
theorem C3_counterexample_best_of_query_marker :
    assetIdentity .video (str "https://h/a/mp4-720p-30fp-crf28/v.mp4") =
        assetIdentity .video (str "https://h/a/mp4-360p-30fp-crf28/v.mp4?x=1080p") ∧
    bestOf (str "https://h/a/mp4-720p-30fp-crf28/v.mp4")
        [str "https://h/a/mp4-360p-30fp-crf28/v.mp4?x=1080p"] =
      str "https://h/a/mp4-360p-30fp-crf28/v.mp4?x=1080p" ∧
    qualKey (urlPathOf (str "https://h/a/mp4-360p-30fp-crf28/v.mp4?x=1080p")) <
      qualKey (urlPathOf (str "https://h/a/mp4-720p-30fp-crf28/v.mp4")) := by
  refine ⟨by decide, by decide, by decide⟩

/-- C9: the asset-shape fallback of `scrape_ad_detail_with_bs4` is dead
code — it runs before `_extract_assets_with_bs4` populates
`ad_detail["assets"]`, so on a page with no explicit type marker and one
extracted video the record's type stays absent, although the heuristic the
block implements (and the spec describes) would classify it "Video Ad". -/
theorem C9_adtype_fallback_dead_code :
    (scrape_ad_detail_slice (str "nothing of note")
        ⟨[], [str "https://cdn/video/v1.mp4"], []⟩).ad_type = none ∧
    (scrape_ad_detail_slice (str "nothing of note")
        ⟨[], [str "https://cdn/video/v1.mp4"], []⟩).assets.videos ≠ [] ∧
    inferAdTypeFromAssets ⟨[], [str "https://cdn/video/v1.mp4"], []⟩ =
      some (str "Video Ad") := by
  refine ⟨by decide, by decide, by decide⟩

/-- C6 counterexample: a deterministic mock endpoint serving 3 ads per page
(`itemsPerPage = 3`) of which only one is fresh from page 2 on makes the
walker perform 10 fetch calls for target 12, far above
`min(ceil(12/3), 100) = 4`; the gap grows linearly with the target, so no
additive constant `O(1)` can repair the claimed bound. -/
theorem C6_counterexample_duplicate_pages_exceed_bound :
    (scrape_search_pages mockDup 12).2.length = 10 ∧
    min ((12 + 3 - 1) / 3) 100 + 5 < 10 := by
  refine ⟨by decide, by decide⟩

/-- If one walker iteration proceeds past the loop guard, its (truthy)
token was not in the seen set. -/
theorem walkStep_not_seen (e : TokMode → Option PageData) (maxRes : Nat)
    (token : Option Str) (seen acc : List Str) :
    walkStep e maxRes token seen acc ≠ .stopNoFetch →
    ∀ t : Str, token = some t → t ≠ [] → t ∉ seen := by
  intro h t htok hne hmem
  apply h
  subst htok
  have hemp : t.isEmpty = false := by
    cases t with
    | nil => exact absurd rfl hne
    | cons a l => rfl
  have hcon : seen.contains t = true := by simpa using hmem
  simp only [walkStep]
  rw [hemp, hcon]
  simp

/-- A fetched-then-stopped iteration leaves the ids unchanged or passes
them through the accumulation loop. -/
theorem walkStep_stopFetched_shape (e : TokMode → Option PageData) (maxRes : Nat)
    (token : Option Str) (seen acc accN : List Str) :
    walkStep e maxRes token seen acc = .stopFetched accN →
    accN = acc ∨ ∃ ids, accN = addPageIds acc ids maxRes := by
  intro h
  simp only [walkStep] at h
  repeat' split at h
  all_goals try exact StepRes.noConfusion h
  all_goals injection h with h'
  all_goals first
    | exact Or.inl h'.symm
    | exact Or.inr ⟨_, h'.symm⟩

/-- A continuing iteration hands over a truthy next token, a seen set that
contains the old one plus the iteration's own truthy token, and ids that
are unchanged or accumulated. -/
theorem walkStep_cont_props (e : TokMode → Option PageData) (maxRes : Nat)
    (token : Option Str) (seen acc accN : List Str) (next : Option Str)
    (seen' : List Str) :
    walkStep e maxRes token seen acc = .cont accN next seen' →
    optTruthy next = true ∧
    (∀ u, u ∈ seen → u ∈ seen') ∧
    (∀ t : Str, token = some t → t ≠ [] → t ∈ seen') ∧
    (accN = acc ∨ ∃ ids, accN = addPageIds acc ids maxRes) := by
  intro h
  simp only [walkStep] at h
  repeat' split at h
  all_goals try exact StepRes.noConfusion h
  all_goals injection h with h1 h2 h3
  all_goals subst h1
  all_goals subst h2
  all_goals subst h3
  all_goals refine ⟨by simp_all [optFalsy], ?_, ?_, ?_⟩
  all_goals try
    first
      | exact Or.inl rfl
      | exact Or.inr ⟨_, rfl⟩
  all_goals try
    intro u hu
    first
      | exact hu
      | exact List.mem_cons_of_mem _ hu
  all_goals intro t0 ht0 hne0
  all_goals first
    | exact Option.noConfusion ht0
    | (injection ht0 with he; subst he;
       first
         | exact List.mem_cons_self _ _
         | simp_all)

/-- Unfolding `dedupFrom` one element at a time. -/
theorem dedupFrom_cons (acc : List Str) (x : Str) (l : List Str) :
    dedupFrom acc (x :: l) = dedupFrom (if x ∈ acc then acc else acc ++ [x]) l := rfl

/-- Deduplicating a concatenation is deduplicating in two stages. -/
theorem dedupFrom_append (acc l1 l2 : List Str) :
    dedupFrom (dedupFrom acc l1) l2 = dedupFrom acc (l1 ++ l2) := by
  simp [dedupFrom, List.foldl_append]

/-- `dedupFrom` only ever appends: the accumulator is a prefix of the result. -/
theorem dedupFrom_prefix : ∀ (l acc : List Str), acc <+: dedupFrom acc l := by
  intro l
  induction l with
  | nil => intro acc; exact List.prefix_refl acc
  | cons x l ih =>
    intro acc
    rw [dedupFrom_cons]
    by_cases hx : x ∈ acc
    · rw [if_pos hx]; exact ih acc
    · rw [if_neg hx]
      exact List.IsPrefix.trans (List.prefix_append acc [x]) (ih (acc ++ [x]))

/-- `dedupFrom` preserves duplicate-freedom. -/
theorem dedupFrom_nodup : ∀ (l acc : List Str), acc.Nodup → (dedupFrom acc l).Nodup := by
  intro l
  induction l with
  | nil => intro acc h; exact h
  | cons x l ih =>
    intro acc h
    rw [dedupFrom_cons]
    by_cases hx : x ∈ acc
    · rw [if_pos hx]; exact ih _ h
    · rw [if_neg hx]
      refine ih _ ?_
      simp [List.nodup_append, h, hx]

/-- The accumulation loop is inert once the target is reached. -/
theorem addPageIds_of_ge (p acc : List Str) (maxRes : Nat)
    (h : maxRes ≤ acc.length) : addPageIds acc p maxRes = acc := by
  cases p with
  | nil => rfl
  | cons a rest => simp [addPageIds, h]

/-- The accumulation loop over one page is first-seen deduplication starting
from the current ids, truncated to the target. -/
theorem addPageIds_eq_take : ∀ (p acc : List Str) (maxRes : Nat),
    acc.length ≤ maxRes →
    addPageIds acc p maxRes = (dedupFrom acc p).take maxRes := by
  intro p
  induction p with
  | nil =>
    intro acc maxRes h
    show acc = acc.take maxRes
    exact (List.take_of_length_le h).symm
  | cons a rest ih =>
    intro acc maxRes h
    rw [dedupFrom_cons]
    by_cases hge : maxRes ≤ acc.length
    · have hlen : acc.length = maxRes := le_antisymm h hge
      rw [addPageIds_of_ge _ _ _ hge]
      by_cases ha : a ∈ acc
      · rw [if_pos ha]
        obtain ⟨e, he⟩ := dedupFrom_prefix rest acc
        rw [← he, List.take_left' hlen]
      · rw [if_neg ha]
        obtain ⟨e, he⟩ := dedupFrom_prefix rest (acc ++ [a])
        rw [← he, List.append_assoc, List.take_left' hlen]
    · simp only [addPageIds]
      rw [if_neg hge]
      by_cases ha : a ∈ acc
      · rw [if_pos ha, if_pos ha]
        exact ih acc maxRes h
      · rw [if_neg ha, if_neg ha]
        refine ih (acc ++ [a]) maxRes ?_
        have : acc.length < maxRes := Nat.lt_of_not_le hge
        simp only [List.length_append, List.length_cons, List.length_nil]
        omega

/-- Truncating the dedup accumulator does not change the truncated result. -/
theorem dedup_take_take (p D : List Str) (maxRes : Nat) :
    (dedupFrom (D.take maxRes) p).take maxRes = (dedupFrom D p).take maxRes := by
  by_cases hD : D.length ≤ maxRes
  · rw [List.take_of_length_le hD]
  · obtain ⟨e, he⟩ := dedupFrom_prefix p (D.take maxRes)
    obtain ⟨e', he'⟩ := dedupFrom_prefix p D
    have hlen : (D.take maxRes).length = maxRes := by
      rw [List.length_take]
      omega
    rw [← he, ← he', List.take_left' hlen]
    rw [← List.take_append_drop maxRes D, List.append_assoc, List.take_left' hlen,
      List.take_left' hlen]

/-- Folding the per-page accumulation over any page sequence computes the
truncated first-seen dedup of the concatenation. -/
theorem accumulatePages_foldl (maxRes : Nat) :
    ∀ (pages : List (List Str)) (J : List Str),
      pages.foldl (fun acc p => addPageIds acc p maxRes)
          ((dedupFrom [] J).take maxRes) =
        (dedupFrom [] (J ++ pages.flatten)).take maxRes := by
  intro pages
  induction pages with
  | nil => intro J; simp
  | cons p ps ih =>
    intro J
    simp only [List.foldl_cons]
    have h1 : addPageIds ((dedupFrom [] J).take maxRes) p maxRes =
        (dedupFrom [] (J ++ p)).take maxRes := by
      rw [addPageIds_eq_take _ _ _ (List.length_take_le _ _), dedup_take_take,
        dedupFrom_append]
    rw [h1, ih (J ++ p)]
    simp [List.append_assoc]

/-- `accumulatePages` in closed form. -/
theorem accumulatePages_spec (pages : List (List Str)) (maxRes : Nat) :
    accumulatePages pages maxRes = (dedupFrom [] pages.flatten).take maxRes := by
  have h := accumulatePages_foldl maxRes pages []
  have h0 : (dedupFrom [] ([] : List Str)).take maxRes = ([] : List Str) := by
    simp [dedupFrom]
  rw [h0] at h
  simpa [accumulatePages] using h

/-- Accumulation preserves duplicate-freedom. -/
theorem addPageIds_nodup (acc p : List Str) (maxRes : Nat)
    (h1 : acc.Nodup) (h2 : acc.length ≤ maxRes) :
    (addPageIds acc p maxRes).Nodup := by
  rw [addPageIds_eq_take _ _ _ h2]
  exact List.Nodup.sublist (List.take_sublist _ _) (dedupFrom_nodup p acc h1)

/-- Accumulation never exceeds the target count. -/
theorem addPageIds_length_le (acc p : List Str) (maxRes : Nat)
    (h2 : acc.length ≤ maxRes) :
    (addPageIds acc p maxRes).length ≤ maxRes := by
  rw [addPageIds_eq_take _ _ _ h2]
  exact List.length_take_le _ _

/-- Each loop iteration contributes at most one fetch to the trace. -/
theorem walkAux_trace_length (e : TokMode → Option PageData) (maxRes : Nat) :
    ∀ (fuel : Nat) (token : Option Str) (seen acc : List Str) (pageNum : Nat),
      (walkAux e maxRes fuel token seen acc pageNum).2.length ≤ fuel := by
  intro fuel
  induction fuel with
  | zero =>
    intro token seen acc pageNum
    simp [walkAux]
  | succ fuel ih =>
    intro token seen acc pageNum
    simp only [walkAux]
    split
    · simp
    · cases hW : walkStep e maxRes token seen acc with
      | stopNoFetch => simp
      | stopFetched accN => simp
      | cont accN next seen' =>
        try dsimp only
        split
        · simp
        · simpa using Nat.succ_le_succ (ih next seen' accN (pageNum + 1))

/-- The walker's fetch-input trace is duplicate-free; moreover every truthy
fetched token avoids the entry seen set, and a falsy token (`None` or the
empty string) can only be the very first fetch input. -/
theorem walkAux_trace_inv (e : TokMode → Option PageData) (maxRes : Nat) :
    ∀ (fuel : Nat) (token : Option Str) (seen acc : List Str) (pageNum : Nat),
      (walkAux e maxRes fuel token seen acc pageNum).2.Nodup ∧
      (∀ t : Str, some t ∈ (walkAux e maxRes fuel token seen acc pageNum).2 →
        t ≠ [] → t ∉ seen) ∧
      ((none : Option Str) ∈ (walkAux e maxRes fuel token seen acc pageNum).2 →
        token = none) ∧
      (some ([] : Str) ∈ (walkAux e maxRes fuel token seen acc pageNum).2 →
        token = some ([] : Str)) := by
  intro fuel
  induction fuel with
  | zero =>
    intro token seen acc pageNum
    simp [walkAux]
  | succ fuel ih =>
    intro token seen acc pageNum
    simp only [walkAux]
    split
    · simp
    · cases hW : walkStep e maxRes token seen acc with
      | stopNoFetch => simp
      | stopFetched accN =>
        try dsimp only
        refine ⟨by simp, ?_, ?_, ?_⟩
        · intro t ht hne
          have h1 : token = some t := (List.mem_singleton.mp ht).symm
          exact walkStep_not_seen e maxRes token seen acc (by rw [hW]; simp) t h1 hne
        · intro hn
          exact (List.mem_singleton.mp hn).symm
        · intro hn
          exact (List.mem_singleton.mp hn).symm
      | cont accN next seen' =>
        obtain ⟨hnext, hmono, hmem, -⟩ :=
          walkStep_cont_props e maxRes token seen acc accN next seen' hW
        try dsimp only
        split
        · refine ⟨by simp, ?_, ?_, ?_⟩
          · intro t ht hne
            have h1 : token = some t := (List.mem_singleton.mp ht).symm
            exact walkStep_not_seen e maxRes token seen acc (by rw [hW]; simp) t h1 hne
          · intro hn
            exact (List.mem_singleton.mp hn).symm
          · intro hn
            exact (List.mem_singleton.mp hn).symm
        · obtain ⟨ih1, ih2, ih3, ih4⟩ := ih next seen' accN (pageNum + 1)
          refine ⟨List.nodup_cons.mpr ⟨?_, ih1⟩, ?_, ?_, ?_⟩
          · intro hmem'
            cases token with
            | none =>
              have hn := ih3 hmem'
              rw [hn] at hnext
              simp [optTruthy] at hnext
            | some t =>
              by_cases ht : t = []
              · subst ht
                have hn := ih4 hmem'
                rw [hn] at hnext
                simp [optTruthy] at hnext
              · exact (ih2 t hmem' ht) (hmem t rfl ht)
          · intro t ht hne
            rcases List.mem_cons.mp ht with h1 | h1
            · exact walkStep_not_seen e maxRes token seen acc (by rw [hW]; simp) t
                h1.symm hne
            · intro hs
              exact (ih2 t h1 hne) (hmono t hs)
          · intro hn
            rcases List.mem_cons.mp hn with h1 | h1
            · exact h1.symm
            · have h2 := ih3 h1
              rw [h2] at hnext
              simp [optTruthy] at hnext
          · intro hn
            rcases List.mem_cons.mp hn with h1 | h1
            · exact h1.symm
            · have h2 := ih4 h1
              rw [h2] at hnext
              simp [optTruthy] at hnext

/-- The walker's accumulated id list stays duplicate-free and within the
target count. -/
theorem walkAux_ids_inv (e : TokMode → Option PageData) (maxRes : Nat) :
    ∀ (fuel : Nat) (token : Option Str) (seen acc : List Str) (pageNum : Nat),
      acc.Nodup → acc.length ≤ maxRes →
      (walkAux e maxRes fuel token seen acc pageNum).1.Nodup ∧
      (walkAux e maxRes fuel token seen acc pageNum).1.length ≤ maxRes := by
  intro fuel
  induction fuel with
  | zero =>
    intro token seen acc pageNum h1 h2
    exact ⟨h1, h2⟩
  | succ fuel ih =>
    intro token seen acc pageNum h1 h2
    simp only [walkAux]
    split
    · exact ⟨h1, h2⟩
    · cases hW : walkStep e maxRes token seen acc with
      | stopNoFetch => exact ⟨h1, h2⟩
      | stopFetched accN =>
        rcases walkStep_stopFetched_shape e maxRes token seen acc accN hW with h | ⟨ids, h⟩
        · subst h; exact ⟨h1, h2⟩
        · subst h
          exact ⟨addPageIds_nodup _ _ _ h1 h2, addPageIds_length_le _ _ _ h2⟩
      | cont accN next seen' =>
        obtain ⟨-, -, -, hshape⟩ :=
          walkStep_cont_props e maxRes token seen acc accN next seen' hW
        try dsimp only
        have hN : accN.Nodup ∧ accN.length ≤ maxRes := by
          rcases hshape with h | ⟨ids, h⟩
          · subst h; exact ⟨h1, h2⟩
          · subst h
            exact ⟨addPageIds_nodup _ _ _ h1 h2, addPageIds_length_le _ _ _ h2⟩
        split
        · exact hN
        · exact ih next seen' accN (pageNum + 1) hN.1 hN.2

/-- C1: in any walk of the pagination walker against any deterministic
endpoint, no token value is used twice as the input of a fetch call: the
walker checks each truthy token against its seen-token set before fetching
and stops on a repeat, stops when the returned token equals the one just
used, and stops on a falsy next token — so the fetch-input trace is
duplicate-free. -/
theorem C1_walker_never_refetches_token :
    ∀ (endpoint : TokMode → Option PageData) (maxRes : Nat),
      (scrape_search_pages endpoint maxRes).2.Nodup := by
  intro endpoint maxRes
  exact (walkAux_trace_inv endpoint maxRes 101 none [] [] 1).1

/-- C2: the accumulated ItemId list over any page sequence is exactly the
first-seen-order deduplication of the concatenated pages truncated to the
target count — hence duplicate-free, order-preserving and of length at most
the target; pages `[A,B,C]` then `[B,C,D]` accumulate to `[A,B,C,D]`; and
the ids returned by a full walker run are likewise duplicate-free and
within the target. -/
theorem C2_accumulation_dedup_order_truncation :
    (∀ (pages : List (List Str)) (maxRes : Nat),
      accumulatePages pages maxRes = (dedupFrom [] pages.flatten).take maxRes ∧
      (accumulatePages pages maxRes).Nodup ∧
      (accumulatePages pages maxRes).length ≤ maxRes) ∧
    accumulatePages [[str "A", str "B", str "C"], [str "B", str "C", str "D"]] 100 =
      [str "A", str "B", str "C", str "D"] ∧
    (∀ (endpoint : TokMode → Option PageData) (maxRes : Nat),
      (scrape_search_pages endpoint maxRes).1.Nodup ∧
      (scrape_search_pages endpoint maxRes).1.length ≤ maxRes) := by
  refine ⟨?_, by decide, ?_⟩
  · intro pages maxRes
    refine ⟨accumulatePages_spec pages maxRes, ?_, ?_⟩
    · rw [accumulatePages_spec]
      exact List.Nodup.sublist (List.take_sublist _ _)
        (dedupFrom_nodup _ _ List.nodup_nil)
    · rw [accumulatePages_spec]
      exact List.length_take_le _ _
  · intro endpoint maxRes
    exact walkAux_ids_inv endpoint maxRes 101 none [] [] 1 List.nodup_nil (by simp)

/-- C6 amended: for every deterministic mock endpoint the walker performs
at most 101 fetch calls (the 100-page safety ceiling plus the final
iteration that trips it); the `min(ceil(target/itemsPerPage), 100) + O(1)`
bound additionally requires every page to contribute only fresh ids, as in
the benign two-page scenario (12 then 8 items, target 15), which takes
exactly `ceil(15/12) = 2` fetches and collects 15 ids. -/
theorem C6_amended_fetch_bound :
    (∀ (endpoint : TokMode → Option PageData) (maxRes : Nat),
      (scrape_search_pages endpoint maxRes).2.length ≤ 101) ∧
    ((scrape_search_pages mockBenign 15).2.length = 2 ∧
      min ((15 + 12 - 1) / 12) 100 = 2 ∧
      (scrape_search_pages mockBenign 15).1.length = 15) := by
  refine ⟨?_, by decide, by decide, by decide⟩
  intro endpoint maxRes
  exact walkAux_trace_length endpoint maxRes 101 none [] [] 1

/-- `takeWhile` of an all-satisfying list is the list itself. -/
theorem takeWhile_all (p : Char → Bool) :
    ∀ l : Str, (∀ c ∈ l, p c = true) → l.takeWhile p = l := by
  intro l
  induction l with
  | nil => intro h; rfl
  | cons c rest ih =>
    intro h
    have hc : p c = true := h c (List.mem_cons_self c rest)
    simp [List.takeWhile_cons, hc, ih (fun a ha => h a (List.mem_cons_of_mem c ha))]

/-- `dropWhile` of an all-satisfying list is empty. -/
theorem dropWhile_all (p : Char → Bool) :
    ∀ l : Str, (∀ c ∈ l, p c = true) → l.dropWhile p = [] := by
  intro l
  induction l with
  | nil => intro h; rfl
  | cons c rest ih =>
    intro h
    have hc : p c = true := h c (List.mem_cons_self c rest)
    simp [List.dropWhile_cons, hc, ih (fun a ha => h a (List.mem_cons_of_mem c ha))]

/-- `takeWhile` over an all-satisfying prefix followed by a failing
character stops exactly at the prefix. -/
theorem takeWhile_append_stop (p : Char → Bool) :
    ∀ (a : Str) (b0 : Char) (bs : Str), (∀ c ∈ a, p c = true) → p b0 = false →
      (a ++ b0 :: bs).takeWhile p = a := by
  intro a
  induction a with
  | nil =>
    intro b0 bs _ hb
    simp [List.takeWhile_cons, hb]
  | cons c rest ih =>
    intro b0 bs ha hb
    have hc : p c = true := ha c (List.mem_cons_self c rest)
    simp [List.takeWhile_cons, hc,
      ih b0 bs (fun a' ha' => ha a' (List.mem_cons_of_mem c ha')) hb]

/-- `dropWhile` counterpart of `takeWhile_append_stop`. -/
theorem dropWhile_append_stop (p : Char → Bool) :
    ∀ (a : Str) (b0 : Char) (bs : Str), (∀ c ∈ a, p c = true) → p b0 = false →
      (a ++ b0 :: bs).dropWhile p = b0 :: bs := by
  intro a
  induction a with
  | nil =>
    intro b0 bs _ hb
    simp [List.dropWhile_cons, hb]
  | cons c rest ih =>
    intro b0 bs ha hb
    have hc : p c = true := ha c (List.mem_cons_self c rest)
    simp [List.dropWhile_cons, hc,
      ih b0 bs (fun a' ha' => ha a' (List.mem_cons_of_mem c ha')) hb]

/-- A list is a Boolean prefix of itself followed by anything. -/
theorem isPrefixB_append_self : ∀ (a t : Str), isPrefixB a (a ++ t) = true := by
  intro a
  induction a with
  | nil => intro t; rfl
  | cons c rest ih => intro t; simp [isPrefixB, ih t]

/-- Membership gives a positive `contains`. -/
theorem contains_of_mem {l : Str} {c : Char} (h : c ∈ l) : l.contains c = true := by
  simpa using h

/-- Absence gives a negative `contains`. -/
theorem contains_eq_false {l : Str} {c : Char} (h : ∀ a ∈ l, ¬ a = c) :
    l.contains c = false := by
  have hn : ¬ c ∈ l := fun hm => h c hm rfl
  simpa using hn

/-- A digit character is distinct from any non-digit character. -/
theorem digit_ne (c spec : Char) (h : c.isDigit = true)
    (hs : spec.isDigit = false) : ¬ c = spec := by
  intro hc
  rw [hc] at h
  rw [h] at hs
  exact Bool.noConfusion hs

/-- The component facts of `goodProfChar`. -/
theorem goodProfChar_spec (c : Char) (h : goodProfChar c = true) :
    ¬ c = '/' ∧ ¬ c = '#' ∧ ¬ c = '?' ∧ ¬ c = ';' ∧
      ¬ c = '\t' ∧ ¬ c = '\r' ∧ ¬ c = '\n' := by
  simp only [goodProfChar, Bool.and_eq_true, decide_eq_true_eq] at h
  exact ⟨h.1.1.1.1.1.1, h.1.1.1.1.1.2, h.1.1.1.1.2, h.1.1.1.2, h.1.1.2, h.1.2, h.2⟩

/-- One no-match step of the fixed-pattern `re.sub` scanner. -/
theorem reSubFuel_step_none (mf : Str → Option Str) (repl : Char) (n : Nat)
    (c : Char) (rest : Str) (h : mf (c :: rest) = none) :
    reSubFuel mf repl (n + 1) (c :: rest) = c :: reSubFuel mf repl n rest := by
  simp [reSubFuel, h]

/-- One match step of the fixed-pattern `re.sub` scanner. -/
theorem reSubFuel_step_some (mf : Str → Option Str) (repl : Char) (n : Nat)
    (c : Char) (rest r : Str) (h : mf (c :: rest) = some r) :
    reSubFuel mf repl (n + 1) (c :: rest) = repl :: reSubFuel mf repl n r := by
  simp [reSubFuel, h]

/-- A string with no match at any position is left unchanged. -/
theorem reSubFuel_id_of_nomatch (mf : Str → Option Str) (repl : Char) :
    ∀ (s : Str) (n : Nat), (∀ i, i < s.length → mf (s.drop i) = none) →
      s.length ≤ n → reSubFuel mf repl n s = s := by
  intro s
  induction s with
  | nil =>
    intro n _ _
    cases n with
    | zero => rfl
    | succ n => rfl
  | cons c rest ih =>
    intro n hno hn
    have hpos : 0 < n := lt_of_lt_of_le (Nat.succ_pos rest.length) hn
    obtain ⟨n', rfl⟩ : ∃ n', n = n' + 1 :=
      ⟨n - 1, by omega⟩
    rw [reSubFuel_step_none mf repl n' c rest (hno 0 (Nat.succ_pos _))]
    refine congrArg (c :: ·) (ih n' ?_ ?_)
    · intro i hi
      exact hno (i + 1) (Nat.succ_lt_succ hi)
    · simp only [List.length_cons] at hn
      omega

/-- `filter` of an all-satisfying list is the list itself. -/
theorem filter_all_id (p : Char → Bool) :
    ∀ l : Str, (∀ c ∈ l, p c = true) → l.filter p = l := by
  intro l
  induction l with
  | nil => intro h; rfl
  | cons c rest ih =>
    intro h
    have hc : p c = true := h c (List.mem_cons_self c rest)
    simp [List.filter_cons, hc, ih (fun a ha => h a (List.mem_cons_of_mem c ha))]

/-- Where a character of the canonical rendition URL can live. -/
theorem mkRendition_mem_split (d m x : Str) :
    ∀ c ∈ mkRendition d m x,
      c ∈ str "https://h/v/mp4-" ∨ c ∈ d ∨ c ∈ str "p-" ∨ c ∈ m ∨
        c ∈ str "fp-" ∨ c ∈ x ∨ c ∈ str "/f.mp4" := by
  intro c hc
  simp only [mkRendition, List.mem_append] at hc
  tauto

/-- Where a character of the canonical rendition path can live. -/
theorem rendPath_mem_split (d m x : Str) :
    ∀ c ∈ rendPath d m x,
      c ∈ str "/v/mp4-" ∨ c ∈ d ∨ c ∈ str "p-" ∨ c ∈ m ∨
        c ∈ str "fp-" ∨ c ∈ x ∨ c ∈ str "/f.mp4" := by
  intro c hc
  simp only [rendPath, List.mem_append] at hc
  tauto

/-- `urlparse` on the canonical rendition URL: scheme `https`, netloc `h`,
path the rendition path, no params, query or fragment. -/
theorem pyUrlparse_mkRendition (d m x : Str)
    (hdall : d.all Char.isDigit = true)
    (hmall : m.all Char.isDigit = true)
    (hxall : x.all goodProfChar = true) :
    pyUrlparse (mkRendition d m x) =
      .ok ⟨str "https", str "h", rendPath d m x, [], []⟩ := by
  have hdg : ∀ c ∈ d, c.isDigit = true := by
    rw [List.all_eq_true] at hdall
    exact hdall
  have hmg : ∀ c ∈ m, c.isDigit = true := by
    rw [List.all_eq_true] at hmall
    exact hmall
  have hxg : ∀ c ∈ x, goodProfChar c = true := by
    rw [List.all_eq_true] at hxall
    exact hxall
  have hrm : removeUnsafe (mkRendition d m x) = mkRendition d m x := by
    apply filter_all_id
    intro c hc
    have hne : ¬ c = '\t' ∧ ¬ c = '\r' ∧ ¬ c = '\n' := by
      rcases mkRendition_mem_split d m x c hc with h | h | h | h | h | h | h
      · exact (by decide :
          ∀ a ∈ str "https://h/v/mp4-", ¬ a = '\t' ∧ ¬ a = '\r' ∧ ¬ a = '\n') c h
      · exact ⟨digit_ne c '\t' (hdg c h) (by decide),
          digit_ne c '\r' (hdg c h) (by decide),
          digit_ne c '\n' (hdg c h) (by decide)⟩
      · exact (by decide : ∀ a ∈ str "p-", ¬ a = '\t' ∧ ¬ a = '\r' ∧ ¬ a = '\n') c h
      · exact ⟨digit_ne c '\t' (hmg c h) (by decide),
          digit_ne c '\r' (hmg c h) (by decide),
          digit_ne c '\n' (hmg c h) (by decide)⟩
      · exact (by decide : ∀ a ∈ str "fp-", ¬ a = '\t' ∧ ¬ a = '\r' ∧ ¬ a = '\n') c h
      · exact ⟨(goodProfChar_spec c (hxg c h)).2.2.2.2.1,
          (goodProfChar_spec c (hxg c h)).2.2.2.2.2.1,
          (goodProfChar_spec c (hxg c h)).2.2.2.2.2.2⟩
      · exact (by decide : ∀ a ∈ str "/f.mp4", ¬ a = '\t' ∧ ¬ a = '\r' ∧ ¬ a = '\n') c h
    simp [hne.1, hne.2.1, hne.2.2]
  have e1 : (str "https://h/v/mp4-" : Str) = str "https" ++ ':' :: str "//h/v/mp4-" := by
    decide
  have hS1 : mkRendition d m x = str "https" ++ ':' ::
      (str "//h/v/mp4-" ++ (d ++ (str "p-" ++ (m ++ (str "fp-" ++
        (x ++ str "/f.mp4")))))) := by
    simp only [mkRendition]
    rw [e1]
    simp [List.append_assoc]
  have hpre : (mkRendition d m x).takeWhile (· ≠ ':') = str "https" := by
    rw [hS1]
    exact takeWhile_append_stop _ _ _ _ (by decide) (by decide)
  have hcol : (mkRendition d m x).contains ':' = true := by
    rw [hS1]
    exact contains_of_mem (List.mem_append.mpr (Or.inr (List.mem_cons_self _ _)))
  have e2 : (str "https://h/v/mp4-" : Str) = str "https:" ++ str "//h/v/mp4-" := by
    decide
  have hS2 : mkRendition d m x = str "https:" ++ (str "//h/v/mp4-" ++
      (d ++ (str "p-" ++ (m ++ (str "fp-" ++ (x ++ str "/f.mp4")))))) := by
    simp only [mkRendition]
    rw [e2]
    simp [List.append_assoc]
  have hdrop : (mkRendition d m x).drop ((str "https").length + 1) =
      str "//h/v/mp4-" ++ (d ++ (str "p-" ++ (m ++ (str "fp-" ++
        (x ++ str "/f.mp4"))))) := by
    rw [hS2]
    have e3 : (str "https").length + 1 = (str "https:").length := by decide
    rw [e3, List.drop_left]
  have hnoqm : ∀ c ∈ rendPath d m x, (decide ¬(c = '#')) = true ∧
      (decide ¬(c = '?')) = true ∧ ¬ c = ';' := by
    intro c hc
    have hne : ¬ c = '#' ∧ ¬ c = '?' ∧ ¬ c = ';' := by
      rcases rendPath_mem_split d m x c hc with h | h | h | h | h | h | h
      · exact (by decide :
          ∀ a ∈ str "/v/mp4-", ¬ a = '#' ∧ ¬ a = '?' ∧ ¬ a = ';') c h
      · exact ⟨digit_ne c '#' (hdg c h) (by decide),
          digit_ne c '?' (hdg c h) (by decide),
          digit_ne c ';' (hdg c h) (by decide)⟩
      · exact (by decide : ∀ a ∈ str "p-", ¬ a = '#' ∧ ¬ a = '?' ∧ ¬ a = ';') c h
      · exact ⟨digit_ne c '#' (hmg c h) (by decide),
          digit_ne c '?' (hmg c h) (by decide),
          digit_ne c ';' (hmg c h) (by decide)⟩
      · exact (by decide : ∀ a ∈ str "fp-", ¬ a = '#' ∧ ¬ a = '?' ∧ ¬ a = ';') c h
      · exact ⟨(goodProfChar_spec c (hxg c h)).2.1,
          (goodProfChar_spec c (hxg c h)).2.2.1,
          (goodProfChar_spec c (hxg c h)).2.2.2.1⟩
      · exact (by decide : ∀ a ∈ str "/f.mp4", ¬ a = '#' ∧ ¬ a = '?' ∧ ¬ a = ';') c h
    exact ⟨by simpa using hne.1, by simpa using hne.2.1, hne.2.2⟩
  have hpreC : List.takeWhile (fun c => decide (c ≠ ':')) (mkRendition d m x) =
      'h' :: str "ttps" := by
    rw [hpre]; decide
  have hdropC : List.drop (List.length ('h' :: str "ttps" : Str) + 1)
      (mkRendition d m x) =
      str "//h/v/mp4-" ++ (d ++ (str "p-" ++ (m ++ (str "fp-" ++
        (x ++ str "/f.mp4"))))) := by
    rw [show List.length ('h' :: str "ttps" : Str) + 1 =
      List.length (str "https") + 1 from by decide]
    exact hdrop
  have g1 : ('h').isAlpha = true := by decide
  have g2 : List.all ('h' :: str "ttps") isSchemeChar = true := by decide
  have f2 : isPrefixB (str "//") (str "//h/v/mp4-" ++ (d ++ (str "p-" ++
      (m ++ (str "fp-" ++ (x ++ str "/f.mp4")))))) = true := by
    rw [show (str "//h/v/mp4-" : Str) = '/' :: '/' :: str "h/v/mp4-" from by decide,
      show (str "//" : Str) = ['/', '/'] from by decide]
    simp [isPrefixB]
  have f3 : List.drop 2 (str "//h/v/mp4-" ++ (d ++ (str "p-" ++
      (m ++ (str "fp-" ++ (x ++ str "/f.mp4")))))) =
      str "h/v/mp4-" ++ (d ++ (str "p-" ++ (m ++ (str "fp-" ++
        (x ++ str "/f.mp4"))))) := by
    rw [show (str "//h/v/mp4-" : Str) = '/' :: '/' :: str "h/v/mp4-" from by decide]
    rfl
  have f4 : List.takeWhile (fun c => c ≠ '/' && c ≠ '?' && c ≠ '#')
      (str "h/v/mp4-" ++ (d ++ (str "p-" ++ (m ++ (str "fp-" ++
        (x ++ str "/f.mp4")))))) = str "h" := by
    rw [show (str "h/v/mp4-" : Str) = 'h' :: '/' :: str "v/mp4-" from by decide]
    exact takeWhile_append_stop (fun c => c ≠ '/' && c ≠ '?' && c ≠ '#') ['h'] '/'
      (str "v/mp4-" ++ (d ++ (str "p-" ++ (m ++ (str "fp-" ++
        (x ++ str "/f.mp4"))))))
      (by decide) (by decide)
  have f5 : (((str "h").contains '[' && !(str "h").contains ']') ||
      ((str "h").contains ']' && !(str "h").contains '[')) = false := by decide
  have f6 : List.drop (str "h").length (str "h/v/mp4-" ++ (d ++ (str "p-" ++
      (m ++ (str "fp-" ++ (x ++ str "/f.mp4")))))) = rendPath d m x := by
    rw [show (str "h/v/mp4-" : Str) = str "h" ++ str "/v/mp4-" from by decide,
      List.append_assoc, List.drop_left]
    simp [rendPath, List.append_assoc]
  have f7 : List.takeWhile (fun c => decide (c ≠ '#')) (rendPath d m x) =
      rendPath d m x :=
    takeWhile_all (fun c => decide (c ≠ '#')) (rendPath d m x)
      (fun c hc => (hnoqm c hc).1)
  have f8 : List.dropWhile (fun c => decide (c ≠ '#')) (rendPath d m x) = [] :=
    dropWhile_all (fun c => decide (c ≠ '#')) (rendPath d m x)
      (fun c hc => (hnoqm c hc).1)
  have f9 : List.takeWhile (fun c => decide (c ≠ '?')) (rendPath d m x) =
      rendPath d m x :=
    takeWhile_all (fun c => decide (c ≠ '?')) (rendPath d m x)
      (fun c hc => (hnoqm c hc).2.1)
  have f10 : List.dropWhile (fun c => decide (c ≠ '?')) (rendPath d m x) = [] :=
    dropWhile_all (fun c => decide (c ≠ '?')) (rendPath d m x)
      (fun c hc => (hnoqm c hc).2.1)
  have f11 : splitParams (rendPath d m x) = rendPath d m x := by
    have hsemP : ';' ∉ rendPath d m x := fun h => (hnoqm ';' h).2.2 rfl
    simp [splitParams, hsemP]
  have f12 : lowerStr ('h' :: str "ttps") = str "https" := by decide
  simp only [pyUrlparse, hrm, hpreC, hcol, hdropC, g1, g2, f2, f3, f4, f5, f6,
    f7, f8, f9, f10, f11, f12, Bool.true_and, Bool.and_true, Bool.and_self,
    eq_self_iff_true, if_true, Bool.false_eq_true, if_false, List.drop_nil]

/-- Elements added by the first cleaning pass satisfy the denylist and
length-window conditions. -/
theorem mem_textFilter_foldl :
    ∀ (texts acc : List Str) (t : Str), t ∈ texts.foldl textFilterStep acc →
      t ∈ acc ∨ (boilerplate t = false ∧ 10 < t.length ∧ t.length < 2000) := by
  intro texts
  induction texts with
  | nil => intro acc t h; exact Or.inl h
  | cons x xs ih =>
    intro acc t h
    rcases ih (textFilterStep acc x) t h with h' | hp
    · unfold textFilterStep at h'
      by_cases hc :
          (!x.isEmpty && decide (10 < x.length) && decide (x.length < 2000) &&
            !acc.contains x && !boilerplate x) = true
      · rw [if_pos hc] at h'
        rcases List.mem_append.mp h' with h2 | h2
        · exact Or.inl h2
        · have hx : t = x := by simpa using h2
          subst hx
          simp only [Bool.and_eq_true, Bool.not_eq_true', decide_eq_true_eq] at hc
          exact Or.inr ⟨hc.2, hc.1.1.1.2, hc.1.1.2⟩
      · rw [if_neg hc] at h'
        exact Or.inl h'
    · exact Or.inr hp

/-- The near-duplicate pass only keeps elements of its input. -/
theorem mem_dropNearDups_foldl :
    ∀ (parts acc : List Str) (t : Str), t ∈ parts.foldl dropStep acc →
      t ∈ acc ∨ t ∈ parts := by
  intro parts
  induction parts with
  | nil => intro acc t h; exact Or.inl h
  | cons x xs ih =>
    intro acc t h
    rcases ih (dropStep acc x) t h with h' | hp
    · unfold dropStep at h'
      by_cases hc : (acc.any fun e => isInfixB x e || isInfixB e x) = true
      · rw [if_pos hc] at h'
        exact Or.inl h'
      · rw [if_neg hc] at h'
        rcases List.mem_append.mp h' with h2 | h2
        · exact Or.inl h2
        · have hx : t = x := by simpa using h2
          exact Or.inr (hx ▸ List.mem_cons_self x xs)
    · exact Or.inr (List.mem_cons_of_mem _ hp)

/-- The near-duplicate pass keeps mutually infix-free texts. -/
theorem pairwise_dropNearDups_foldl :
    ∀ (parts acc : List Str),
      acc.Pairwise (fun a b => isInfixB a b = false ∧ isInfixB b a = false) →
      (parts.foldl dropStep acc).Pairwise
        (fun a b => isInfixB a b = false ∧ isInfixB b a = false) := by
  intro parts
  induction parts with
  | nil => intro acc h; exact h
  | cons x xs ih =>
    intro acc h
    refine ih (dropStep acc x) ?_
    unfold dropStep
    by_cases hc : (acc.any fun e => isInfixB x e || isInfixB e x) = true
    · rw [if_pos hc]; exact h
    · rw [if_neg hc]
      rw [List.pairwise_append]
      refine ⟨h, List.pairwise_singleton _ _, ?_⟩
      intro a ha b hb
      have hb' : b = x := by simpa using hb
      subst hb'
      simp only [Bool.not_eq_true, List.any_eq_false, Bool.or_eq_false_iff] at hc
      exact ⟨(hc a ha).2, (hc a ha).1⟩

/-- C8: every kept text block is outside the boilerplate denylist and
strictly inside the 10..2000 length window; kept blocks are pairwise
neither substrings nor superstrings of one another; at most 5 are kept;
and of the candidates `["Buy now", "Buy now today", "Cookie policy
applies"]` exactly one of the first two survives ("Buy now" falls to the
length window, "Buy now today" is kept) and the third is dropped
(boilerplate). -/
theorem C8_text_cleaning :
    (∀ texts : List Str,
      (clean_ad_texts texts).length ≤ 5 ∧
      (∀ t ∈ clean_ad_texts texts,
        boilerplate t = false ∧ 10 < t.length ∧ t.length < 2000) ∧
      (clean_ad_texts texts).Pairwise
        (fun a b => isInfixB a b = false ∧ isInfixB b a = false)) ∧
    clean_ad_texts [str "Buy now", str "Buy now today", str "Cookie policy applies"] =
      [str "Buy now today"] := by
  constructor
  · intro texts
    refine ⟨List.length_take_le 5 _, ?_, ?_⟩
    · intro t ht
      have h1 : t ∈ dropNearDups (textFilter texts) := List.mem_of_mem_take ht
      have h2 : t ∈ textFilter texts := by
        rcases mem_dropNearDups_foldl (textFilter texts) [] t h1 with h | h
        · cases h
        · exact h
      rcases mem_textFilter_foldl texts [] t h2 with h | h
      · cases h
      · exact h
    · exact List.Pairwise.sublist (List.take_sublist 5 _)
        (pairwise_dropNearDups_foldl _ [] List.Pairwise.nil)
  · decide

/-- Looking up the key just assigned. -/
theorem dictGet_dictSet_self : ∀ (d : List (Str × Str)) (k v : Str),
    dictGet (dictSet d k v) k = some v := by
  intro d
  induction d with
  | nil => intro k v; simp [dictGet, dictSet, List.find?]
  | cons kv rest ih =>
    intro k v
    by_cases h : kv.1 == k
    · simp [dictSet, h, dictGet, List.find?]
    · simp only [dictSet, h, if_false, Bool.false_eq_true]
      simp only [dictGet, List.find?, h] at ih ⊢
      exact ih k v

/-- Assignment does not disturb other keys. -/
theorem dictGet_dictSet_ne : ∀ (d : List (Str × Str)) (k k' v : Str),
    ¬ k' = k → dictGet (dictSet d k v) k' = dictGet d k' := by
  intro d
  induction d with
  | nil =>
    intro k k' v h
    have : (k == k') = false := by
      simp [beq_iff_eq]
      exact fun he => h he.symm
    simp [dictGet, dictSet, List.find?, this]
  | cons kv rest ih =>
    intro k k' v h
    by_cases hk : kv.1 == k
    · have hk1 : kv.1 = k := by simpa [beq_iff_eq] using hk
      have : (k == k') = false := by
        simp [beq_iff_eq]
        exact fun he => h he.symm
      simp [dictSet, hk, dictGet, List.find?, this, hk1]
    · simp only [dictSet, hk, if_false, Bool.false_eq_true]
      simp only [dictGet, List.find?] at ih ⊢
      cases hh : kv.1 == k' with
      | true => rfl
      | false => exact ih k k' v h

/-- `os.path.join` with a nonempty second component is nonempty. -/
theorem joinPath_ne_nil_right (a b : Str) (hb : b ≠ []) : joinPath a b ≠ [] := by
  unfold joinPath
  split
  · exact hb
  · split
    · exact hb
    · split <;> simp [hb]

/-- `os.path.join` with a nonempty first component is nonempty. -/
theorem joinPath_ne_nil_left (a b : Str) (ha : a ≠ []) : joinPath a b ≠ [] := by
  unfold joinPath
  split
  · rename_i hh
    intro hb
    rw [hb] at hh
    simp at hh
  · split
    · rename_i hh
      exact absurd (by simpa using hh) ha
    · split <;> simp [ha]

/-- Download target paths are never the empty string. -/
theorem assetPath_ne_nil (gen : Str → Str → Str → Nat → Str)
    (adDir subdir kind adId u : Str) (i : Nat) (hsub : subdir ≠ []) :
    assetPath gen adDir subdir kind adId u i ≠ [] :=
  joinPath_ne_nil_left _ _ (joinPath_ne_nil_right adDir subdir hsub)

/-- A cached truthy path short-circuits the download. -/
theorem flatStep_cached (gen : Str → Str → Str → Nat → Str) (oracle : Str → Bool)
    (adId adDir subdir kind : Str) (m : List (Str × Str)) (u : Str) (i : Nat)
    (p : Str) (hg : dictGet m (normalize_url u) = some p) (hp : p ≠ []) :
    flatStep gen oracle adId adDir subdir kind m u i = (some p, m, 0) := by
  have hp' : p.isEmpty = false := by
    cases p with
    | nil => exact absurd rfl hp
    | cons a l => rfl
  simp [flatStep, hg, hp']

/-- A missing (or empty-path) cache entry with a succeeding download
registers and returns the generated path, counting one attempt. -/
theorem flatStep_falsy_success (gen : Str → Str → Str → Nat → Str)
    (oracle : Str → Bool) (adId adDir subdir kind : Str) (m : List (Str × Str))
    (u : Str) (i : Nat)
    (hg : dictGet m (normalize_url u) = none ∨
      dictGet m (normalize_url u) = some []) (ho : oracle u = true) :
    flatStep gen oracle adId adDir subdir kind m u i =
      (some (assetPath gen adDir subdir kind adId u i),
       dictSet m (normalize_url u) (assetPath gen adDir subdir kind adId u i), 1) := by
  rcases hg with hg | hg <;> simp [flatStep, hg, ho]

/-- A missing (or empty-path) cache entry with a failing download changes
nothing but counts one attempt. -/
theorem flatStep_falsy_fail (gen : Str → Str → Str → Nat → Str)
    (oracle : Str → Bool) (adId adDir subdir kind : Str) (m : List (Str × Str))
    (u : Str) (i : Nat)
    (hg : dictGet m (normalize_url u) = none ∨
      dictGet m (normalize_url u) = some []) (ho : oracle u = false) :
    flatStep gen oracle adId adDir subdir kind m u i = (none, m, 1) := by
  rcases hg with hg | hg <;> simp [flatStep, hg, ho]

/-- The image/poster loop never disturbs a truthy cache entry. -/
theorem procFlat_preserve (gen : Str → Str → Str → Nat → Str)
    (oracle : Str → Bool) (adId adDir subdir kind : Str) :
    ∀ (us : List Str) (m : List (Str × Str)) (i : Nat) (k v : Str),
      dictGet m k = some v → v ≠ [] →
      dictGet (procFlat gen oracle adId adDir subdir kind m us i).2.1 k = some v := by
  intro us
  induction us with
  | nil => intro m i k v h hv; exact h
  | cons u us ih =>
    intro m i k v h hv
    simp only [procFlat]
    by_cases hcase : ∃ p, dictGet m (normalize_url u) = some p ∧ p ≠ []
    · obtain ⟨p, hgt, hpne⟩ := hcase
      rw [flatStep_cached gen oracle adId adDir subdir kind m u i p hgt hpne]
      try dsimp only
      exact ih m (i + 1) k v h hv
    · have hfalsy : dictGet m (normalize_url u) = none ∨
          dictGet m (normalize_url u) = some [] := by
        rcases hx : dictGet m (normalize_url u) with _ | p
        · exact Or.inl rfl
        · by_cases hp : p = []
          · exact Or.inr (by rw [hp])
          · exact absurd ⟨p, hx, hp⟩ hcase
      have hk : ¬ k = normalize_url u := by
        intro he
        rcases hfalsy with hf | hf <;> rw [he, hf] at h
        · exact Option.noConfusion h
        · exact hv (by injection h with h'; exact h'.symm)
      cases hor : oracle u with
      | true =>
        rw [flatStep_falsy_success gen oracle adId adDir subdir kind m u i hfalsy hor]
        try dsimp only
        refine ih _ (i + 1) k v ?_ hv
        rw [dictGet_dictSet_ne _ _ _ _ hk]
        exact h
      | false =>
        rw [flatStep_falsy_fail gen oracle adId adDir subdir kind m u i hfalsy hor]
        try dsimp only
        exact ih m (i + 1) k v h hv

/-- Re-running the image/poster loop from its own final cache state hits
the cache on every candidate: same outputs, same state, zero attempts —
provided every download in the first run succeeded. -/
theorem procFlat_idem (gen : Str → Str → Str → Nat → Str) (oracle : Str → Bool)
    (adId adDir subdir kind : Str) (hsub : subdir ≠ []) :
    ∀ (us : List Str) (m : List (Str × Str)) (i : Nat),
      (∀ u ∈ us, oracle u = true) →
      procFlat gen oracle adId adDir subdir kind
          (procFlat gen oracle adId adDir subdir kind m us i).2.1 us i =
        ((procFlat gen oracle adId adDir subdir kind m us i).1,
         (procFlat gen oracle adId adDir subdir kind m us i).2.1, 0) := by
  intro us
  induction us with
  | nil => intro m i h; rfl
  | cons u us ih =>
    intro m i h
    have hu : oracle u = true := h u (List.mem_cons_self u us)
    have hus : ∀ w ∈ us, oracle w = true := fun w hw => h w (List.mem_cons_of_mem u hw)
    by_cases hcase : ∃ p, dictGet m (normalize_url u) = some p ∧ p ≠ []
    · obtain ⟨p, hgt, hpne⟩ := hcase
      have hstep := flatStep_cached gen oracle adId adDir subdir kind m u i p hgt hpne
      simp only [procFlat, hstep]
      try dsimp only
      have hget2 : dictGet (procFlat gen oracle adId adDir subdir kind m us (i + 1)).2.1
          (normalize_url u) = some p :=
        procFlat_preserve gen oracle adId adDir subdir kind us m (i + 1) _ p hgt hpne
      rw [flatStep_cached gen oracle adId adDir subdir kind _ u i p hget2 hpne]
      try dsimp only
      rw [ih m (i + 1) hus]
      simp
    · have hfalsy : dictGet m (normalize_url u) = none ∨
          dictGet m (normalize_url u) = some [] := by
        rcases hx : dictGet m (normalize_url u) with _ | p
        · exact Or.inl rfl
        · by_cases hp : p = []
          · exact Or.inr (by rw [hp])
          · exact absurd ⟨p, hx, hp⟩ hcase
      have hstep := flatStep_falsy_success gen oracle adId adDir subdir kind m u i hfalsy hu
      simp only [procFlat, hstep]
      try dsimp only
      have hpne : assetPath gen adDir subdir kind adId u i ≠ [] :=
        assetPath_ne_nil gen adDir subdir kind adId u i hsub
      have hget1 : dictGet (dictSet m (normalize_url u)
          (assetPath gen adDir subdir kind adId u i)) (normalize_url u) =
          some (assetPath gen adDir subdir kind adId u i) :=
        dictGet_dictSet_self _ _ _
      have hget2 : dictGet (procFlat gen oracle adId adDir subdir kind
          (dictSet m (normalize_url u) (assetPath gen adDir subdir kind adId u i))
          us (i + 1)).2.1 (normalize_url u) =
          some (assetPath gen adDir subdir kind adId u i) :=
        procFlat_preserve gen oracle adId adDir subdir kind us _ (i + 1) _ _ hget1 hpne
      rw [flatStep_cached gen oracle adId adDir subdir kind _ u i _ hget2 hpne]
      try dsimp only
      rw [ih (dictSet m (normalize_url u) (assetPath gen adDir subdir kind adId u i))
        (i + 1) hus]
      simp

/-- A cached truthy path short-circuits the video download. -/
theorem videoStep_cached (gen : Str → Str → Str → Nat → Str) (oracle : Str → Bool)
    (adId adDir : Str) (m : List (Str × Str)) (g : Str × Str × List Str) (j : Nat)
    (p : Str) (hg : dictGet m (get_video_base_path g.2.1) = some p) (hp : p ≠ []) :
    videoStep gen oracle adId adDir m g j = (some p, m, 0) := by
  have hp' : p.isEmpty = false := by
    cases p with
    | nil => exact absurd rfl hp
    | cons a l => rfl
  simp [videoStep, hg, hp']

/-- A fresh video group with a succeeding download of its best rendition
registers the path under the group's base path. -/
theorem videoStep_falsy_success (gen : Str → Str → Str → Nat → Str)
    (oracle : Str → Bool) (adId adDir : Str) (m : List (Str × Str))
    (g : Str × Str × List Str) (j : Nat)
    (hg : dictGet m (get_video_base_path g.2.1) = none ∨
      dictGet m (get_video_base_path g.2.1) = some [])
    (ho : oracle (bestOf g.2.1 g.2.2) = true) :
    videoStep gen oracle adId adDir m g j =
      (some (assetPath gen adDir (str "videos") (str "video") adId
        (bestOf g.2.1 g.2.2) (j + 1)),
       dictSet m g.1 (assetPath gen adDir (str "videos") (str "video") adId
        (bestOf g.2.1 g.2.2) (j + 1)), 1) := by
  rcases hg with hg | hg <;> simp [videoStep, hg, ho]

/-- The video loop never disturbs a truthy cache entry (for groups whose
key is the base path of their first URL, as `buildGroups` produces). -/
theorem procVideos_preserve (gen : Str → Str → Str → Nat → Str)
    (oracle : Str → Bool) (adId adDir : Str) :
    ∀ (gs : List (Str × Str × List Str)) (m : List (Str × Str)) (j : Nat)
      (k v : Str),
      (∀ g ∈ gs, g.1 = get_video_base_path g.2.1) →
      dictGet m k = some v → v ≠ [] →
      dictGet (procVideos gen oracle adId adDir m gs j).2.1 k = some v := by
  intro gs
  induction gs with
  | nil => intro m j k v hb h hv; exact h
  | cons g gs ih =>
    intro m j k v hb h hv
    have hbase : g.1 = get_video_base_path g.2.1 := hb g (List.mem_cons_self g gs)
    have hbs : ∀ g' ∈ gs, g'.1 = get_video_base_path g'.2.1 :=
      fun g' hg' => hb g' (List.mem_cons_of_mem g hg')
    simp only [procVideos]
    by_cases hcase : ∃ p, dictGet m (get_video_base_path g.2.1) = some p ∧ p ≠ []
    · obtain ⟨p, hgt, hpne⟩ := hcase
      rw [videoStep_cached gen oracle adId adDir m g j p hgt hpne]
      try dsimp only
      exact ih m (j + 1) k v hbs h hv
    · have hfalsy : dictGet m (get_video_base_path g.2.1) = none ∨
          dictGet m (get_video_base_path g.2.1) = some [] := by
        rcases hx : dictGet m (get_video_base_path g.2.1) with _ | p
        · exact Or.inl rfl
        · by_cases hp : p = []
          · exact Or.inr (by rw [hp])
          · exact absurd ⟨p, hx, hp⟩ hcase
      have hk : ¬ k = g.1 := by
        intro he
        rw [hbase] at he
        rcases hfalsy with hf | hf <;> rw [he, hf] at h
        · exact Option.noConfusion h
        · exact hv (by injection h with h'; exact h'.symm)
      cases hor : oracle (bestOf g.2.1 g.2.2) with
      | true =>
        rw [videoStep_falsy_success gen oracle adId adDir m g j hfalsy hor]
        try dsimp only
        refine ih _ (j + 1) k v hbs ?_ hv
        rw [dictGet_dictSet_ne _ _ _ _ hk]
        exact h
      | false =>
        have : videoStep gen oracle adId adDir m g j = (none, m, 1) := by
          rcases hfalsy with hf | hf <;> simp [videoStep, hf, hor]
        rw [this]
        try dsimp only
        exact ih m j k v hbs h hv

/-- Re-running the video loop from its own final cache state reuses every
group's cached path: same outputs, same state, zero attempts. -/
theorem procVideos_idem (gen : Str → Str → Str → Nat → Str) (oracle : Str → Bool)
    (adId adDir : Str) :
    ∀ (gs : List (Str × Str × List Str)) (m : List (Str × Str)) (j : Nat),
      (∀ g ∈ gs, g.1 = get_video_base_path g.2.1 ∧
        oracle (bestOf g.2.1 g.2.2) = true) →
      procVideos gen oracle adId adDir
          (procVideos gen oracle adId adDir m gs j).2.1 gs j =
        ((procVideos gen oracle adId adDir m gs j).1,
         (procVideos gen oracle adId adDir m gs j).2.1, 0) := by
  intro gs
  induction gs with
  | nil => intro m j h; rfl
  | cons g gs ih =>
    intro m j h
    have hg0 := h g (List.mem_cons_self g gs)
    have hbase : g.1 = get_video_base_path g.2.1 := hg0.1
    have hbest : oracle (bestOf g.2.1 g.2.2) = true := hg0.2
    have hgs : ∀ g' ∈ gs, g'.1 = get_video_base_path g'.2.1 ∧
        oracle (bestOf g'.2.1 g'.2.2) = true :=
      fun g' hg' => h g' (List.mem_cons_of_mem g hg')
    have hbs : ∀ g' ∈ gs, g'.1 = get_video_base_path g'.2.1 :=
      fun g' hg' => (hgs g' hg').1
    by_cases hcase : ∃ p, dictGet m (get_video_base_path g.2.1) = some p ∧ p ≠ []
    · obtain ⟨p, hgt, hpne⟩ := hcase
      have hstep := videoStep_cached gen oracle adId adDir m g j p hgt hpne
      simp only [procVideos, hstep]
      try dsimp only
      have hget2 : dictGet (procVideos gen oracle adId adDir m gs (j + 1)).2.1
          (get_video_base_path g.2.1) = some p :=
        procVideos_preserve gen oracle adId adDir gs m (j + 1) _ p hbs hgt hpne
      rw [videoStep_cached gen oracle adId adDir _ g j p hget2 hpne]
      try dsimp only
      rw [ih m (j + 1) hgs]
      simp
    · have hfalsy : dictGet m (get_video_base_path g.2.1) = none ∨
          dictGet m (get_video_base_path g.2.1) = some [] := by
        rcases hx : dictGet m (get_video_base_path g.2.1) with _ | p
        · exact Or.inl rfl
        · by_cases hp : p = []
          · exact Or.inr (by rw [hp])
          · exact absurd ⟨p, hx, hp⟩ hcase
      have hstep := videoStep_falsy_success gen oracle adId adDir m g j hfalsy hbest
      simp only [procVideos, hstep]
      try dsimp only
      have hpne : assetPath gen adDir (str "videos") (str "video") adId
          (bestOf g.2.1 g.2.2) (j + 1) ≠ [] :=
        assetPath_ne_nil gen adDir _ _ adId _ _ (by decide)
      have hget1 : dictGet (dictSet m g.1 (assetPath gen adDir (str "videos")
          (str "video") adId (bestOf g.2.1 g.2.2) (j + 1)))
          (get_video_base_path g.2.1) =
          some (assetPath gen adDir (str "videos") (str "video") adId
            (bestOf g.2.1 g.2.2) (j + 1)) := by
        rw [← hbase]
        exact dictGet_dictSet_self _ _ _
      have hget2 : dictGet (procVideos gen oracle adId adDir
          (dictSet m g.1 (assetPath gen adDir (str "videos") (str "video") adId
            (bestOf g.2.1 g.2.2) (j + 1))) gs (j + 1)).2.1
          (get_video_base_path g.2.1) =
          some (assetPath gen adDir (str "videos") (str "video") adId
            (bestOf g.2.1 g.2.2) (j + 1)) :=
        procVideos_preserve gen oracle adId adDir gs _ (j + 1) _ _ hbs hget1 hpne
      rw [videoStep_cached gen oracle adId adDir _ g j _ hget2 hpne]
      try dsimp only
      rw [ih (dictSet m g.1 (assetPath gen adDir (str "videos") (str "video") adId
        (bestOf g.2.1 g.2.2) (j + 1))) (j + 1) hgs]
      simp

/-- The chosen best rendition is one of the group's URLs. -/
theorem bestOf_mem : ∀ (us : List Str) (u : Str), bestOf u us ∈ u :: us := by
  intro us
  induction us with
  | nil => intro u; exact List.mem_singleton.mpr rfl
  | cons x us ih =>
    intro u
    have h1 : bestOf u (x :: us) =
        bestOf (if qualKey u < qualKey x then x else u) us := rfl
    rw [h1]
    rcases List.mem_cons.mp (ih (if qualKey u < qualKey x then x else u)) with h | h
    · by_cases hc : qualKey u < qualKey x
      · rw [h, if_pos hc]
        exact List.mem_cons_of_mem _ (List.mem_cons_self _ _)
      · rw [h, if_neg hc]
        exact List.mem_cons_self _ _
    · exact List.mem_cons_of_mem _ (List.mem_cons_of_mem _ h)

/-- `addToGroups` preserves the group invariant: the key is the base path
of the group's first URL and every member URL satisfies the download
oracle. -/
theorem addToGroups_ok (oracle : Str → Bool) :
    ∀ (gs : List (Str × Str × List Str)) (base u : Str),
      (∀ g ∈ gs, g.1 = get_video_base_path g.2.1 ∧
        ∀ w ∈ g.2.1 :: g.2.2, oracle w = true) →
      base = get_video_base_path u → oracle u = true →
      ∀ g ∈ addToGroups gs base u,
        g.1 = get_video_base_path g.2.1 ∧ ∀ w ∈ g.2.1 :: g.2.2, oracle w = true := by
  intro gs
  induction gs with
  | nil =>
    intro base u hgs hbase hu g hg
    simp only [addToGroups, List.mem_singleton] at hg
    subst hg
    refine ⟨hbase, ?_⟩
    intro w hw
    have : w = u := by simpa using hw
    subst this
    exact hu
  | cons g0 gs ih =>
    intro base u hgs hbase hu g hg
    obtain ⟨b, f, rest⟩ := g0
    simp only [addToGroups] at hg
    by_cases hb : (b == base) = true
    · rw [if_pos hb] at hg
      rcases List.mem_cons.mp hg with h1 | h1
      · subst h1
        have h0 := hgs (b, f, rest) (List.mem_cons_self _ _)
        refine ⟨h0.1, ?_⟩
        intro w hw
        rcases List.mem_cons.mp hw with h2 | h2
        · exact h0.2 w (h2 ▸ List.mem_cons_self _ _)
        · rcases List.mem_append.mp h2 with h3 | h3
          · exact h0.2 w (List.mem_cons_of_mem _ h3)
          · have : w = u := by simpa using h3
            subst this
            exact hu
      · exact hgs g (List.mem_cons_of_mem _ h1)
    · rw [if_neg hb] at hg
      rcases List.mem_cons.mp hg with h1 | h1
      · subst h1
        exact hgs (b, f, rest) (List.mem_cons_self _ _)
      · exact ih base u (fun g' hg' => hgs g' (List.mem_cons_of_mem _ hg')) hbase hu g h1

/-- Every group `buildGroups` produces is keyed by the base path of its
first URL, and all its URLs download successfully when all input URLs do. -/
theorem buildGroups_ok (oracle : Str → Bool) :
    ∀ (urls : List Str) (gs : List (Str × Str × List Str)),
      (∀ g ∈ gs, g.1 = get_video_base_path g.2.1 ∧
        ∀ w ∈ g.2.1 :: g.2.2, oracle w = true) →
      (∀ u ∈ urls, oracle u = true) →
      ∀ g ∈ urls.foldl (fun gs u => addToGroups gs (get_video_base_path u) u) gs,
        g.1 = get_video_base_path g.2.1 ∧ ∀ w ∈ g.2.1 :: g.2.2, oracle w = true := by
  intro urls
  induction urls with
  | nil => intro gs hgs hall; exact hgs
  | cons u urls ih =>
    intro gs hgs hall
    refine ih (addToGroups gs (get_video_base_path u) u) ?_ ?_
    · exact addToGroups_ok oracle gs (get_video_base_path u) u hgs rfl
        (hall u (List.mem_cons_self u urls))
    · exact fun w hw => hall w (List.mem_cons_of_mem u hw)

/-- Re-running the logo branch against any state with the same logos dict
reuses the cached path: same output, unchanged state, zero attempts. -/
theorem logoPhase_idem (gen : Str → Str → Str → Nat → Str) (oracle : Str → Bool)
    (adId adDir : Str) (logoUrl : Option Str) (s : SeenAssets)
    (hl : ∀ u, logoUrl = some u → oracle u = true) :
    ∀ s' : SeenAssets,
      s'.logos = (logoPhase gen oracle adId adDir logoUrl s).2.1.logos →
      logoPhase gen oracle adId adDir logoUrl s' =
        ((logoPhase gen oracle adId adDir logoUrl s).1, s', 0) := by
  intro s' hs
  cases logoUrl with
  | none => rfl
  | some lu =>
    by_cases hlu : lu.isEmpty = true
    · simp [logoPhase, hlu]
    · have ho : oracle lu = true := hl lu rfl
      by_cases hcase : ∃ p, dictGet s.logos (normalize_url lu) = some p ∧ p ≠ []
      · obtain ⟨p, hg, hpne⟩ := hcase
        have hp' : p.isEmpty = false := by
          cases p with
          | nil => exact absurd rfl hpne
          | cons a l => rfl
        have hrun1 : logoPhase gen oracle adId adDir (some lu) s = (some p, s, 0) := by
          simp [logoPhase, hlu, hg, hp']
        rw [hrun1] at hs
        rw [hrun1]
        have hg' : dictGet s'.logos (normalize_url lu) = some p := by
          rw [hs]
          exact hg
        simp [logoPhase, hlu, hg', hp']
      · have hfalsy : dictGet s.logos (normalize_url lu) = none ∨
            dictGet s.logos (normalize_url lu) = some [] := by
          rcases hx : dictGet s.logos (normalize_url lu) with _ | p
          · exact Or.inl rfl
          · by_cases hp : p = []
            · exact Or.inr (by rw [hp])
            · exact absurd ⟨p, hx, hp⟩ hcase
        have hrun1 : logoPhase gen oracle adId adDir (some lu) s =
            (some (assetPath gen adDir (str "logo") (str "logo") adId lu 0),
              { s with
                logos := dictSet s.logos (normalize_url lu)
                  (assetPath gen adDir (str "logo") (str "logo") adId lu 0) },
              1) := by
          rcases hfalsy with hf | hf <;> simp [logoPhase, hlu, hf, ho]
        rw [hrun1] at hs
        rw [hrun1]
        have hpne : assetPath gen adDir (str "logo") (str "logo") adId lu 0 ≠ [] :=
          assetPath_ne_nil gen adDir _ _ adId _ _ (by decide)
        have hp' : (assetPath gen adDir (str "logo") (str "logo") adId lu 0).isEmpty
            = false := by
          cases hx : assetPath gen adDir (str "logo") (str "logo") adId lu 0 with
          | nil => exact absurd hx hpne
          | cons a l => rfl
        have hg' : dictGet s'.logos (normalize_url lu) =
            some (assetPath gen adDir (str "logo") (str "logo") adId lu 0) := by
          rw [hs]
          exact dictGet_dictSet_self _ _ _
        simp [logoPhase, hlu, hg', hp']

/-- C5 amended: provided every download of the first materialization
succeeds, materializing the same record's assets a second time performs
zero download attempts (every candidate hits the `seen_assets` cache),
returns the identical `Downloaded` record, and leaves the cache unchanged —
for any filename generator, any starting cache state and any record. -/
theorem C5_amended_idempotent_when_downloads_succeed :
    ∀ (gen : Str → Str → Str → Nat → Str) (oracle : Str → Bool) (adId : Str)
      (logoUrl : Option Str) (assets : AssetsRec) (outputDir : Str)
      (s : SeenAssets),
      (∀ u, logoUrl = some u → oracle u = true) →
      (∀ u ∈ assets.images, oracle u = true) →
      (∀ u ∈ assets.videos, oracle u = true) →
      (∀ u ∈ assets.posters, oracle u = true) →
      materialize gen oracle adId logoUrl assets outputDir
          (materialize gen oracle adId logoUrl assets outputDir s).2.1 =
        ((materialize gen oracle adId logoUrl assets outputDir s).1,
         (materialize gen oracle adId logoUrl assets outputDir s).2.1, 0) := by
  intro gen oracle adId logoUrl assets outputDir s hl hi hv hp
  rcases hA : logoPhase gen oracle adId (joinPath outputDir adId) logoUrl s with
    ⟨lg, sA, n1⟩
  rcases hI : procFlat gen oracle adId (joinPath outputDir adId) (str "images")
      (str "image") sA.images assets.images 1 with ⟨imgs, imap, n2⟩
  rcases hV : procVideos gen oracle adId (joinPath outputDir adId) sA.videos
      (buildGroups assets.videos) 0 with ⟨vids, vmap, n3⟩
  rcases hP : procFlat gen oracle adId (joinPath outputDir adId) (str "posters")
      (str "poster") sA.posters assets.posters 1 with ⟨posts, pmap, n4⟩
  have hrun1 : materialize gen oracle adId logoUrl assets outputDir s =
      (⟨lg, imgs, vids, posts⟩, ⟨sA.logos, imap, vmap, pmap⟩, n1 + n2 + n3 + n4) := by
    simp only [materialize, hA]
    try dsimp only
    rw [hI]
    try dsimp only
    rw [hV]
    try dsimp only
    rw [hP]
  have hok : ∀ g ∈ buildGroups assets.videos,
      g.1 = get_video_base_path g.2.1 ∧ oracle (bestOf g.2.1 g.2.2) = true := by
    intro g hg
    obtain ⟨h1, h2⟩ := buildGroups_ok oracle assets.videos [] (by simp) hv g hg
    exact ⟨h1, h2 _ (bestOf_mem g.2.2 g.2.1)⟩
  have hA2 : logoPhase gen oracle adId (joinPath outputDir adId) logoUrl
      (⟨sA.logos, imap, vmap, pmap⟩ : SeenAssets) =
      (lg, (⟨sA.logos, imap, vmap, pmap⟩ : SeenAssets), 0) := by
    have h := logoPhase_idem gen oracle adId (joinPath outputDir adId) logoUrl s hl
      (⟨sA.logos, imap, vmap, pmap⟩ : SeenAssets) (by rw [hA])
    rw [hA] at h
    exact h
  have hI2 : procFlat gen oracle adId (joinPath outputDir adId) (str "images")
      (str "image") imap assets.images 1 = (imgs, imap, 0) := by
    have h := procFlat_idem gen oracle adId (joinPath outputDir adId) (str "images")
      (str "image") (by decide) assets.images sA.images 1 hi
    rw [hI] at h
    exact h
  have hV2 : procVideos gen oracle adId (joinPath outputDir adId) vmap
      (buildGroups assets.videos) 0 = (vids, vmap, 0) := by
    have h := procVideos_idem gen oracle adId (joinPath outputDir adId)
      (buildGroups assets.videos) sA.videos 0 hok
    rw [hV] at h
    exact h
  have hP2 : procFlat gen oracle adId (joinPath outputDir adId) (str "posters")
      (str "poster") pmap assets.posters 1 = (posts, pmap, 0) := by
    have h := procFlat_idem gen oracle adId (joinPath outputDir adId) (str "posters")
      (str "poster") (by decide) assets.posters sA.posters 1 hp
    rw [hP] at h
    exact h
  rw [hrun1]
  simp only [materialize, hA2]
  try dsimp only
  rw [hI2]
  try dsimp only
  rw [hV2]
  try dsimp only
  rw [hP2]
  simp

/-- Witness for the amended C5: a concrete record (one image, two
renditions of one video) materialized twice from the empty cache — the
first run performs 2 downloads, the second 0 with identical outputs. -/
theorem C5_amended_witness :
    (let gen := generate_filename md5stub
     let oracle : Str → Bool := fun _ => true
     let ad : AssetsRec := ⟨[str "https://c/i.png"],
       [str "https://h/a/mp4-360p-30fp-crf28/v.mp4",
        str "https://h/a/mp4-720p-30fp-crf28/v.mp4"], []⟩
     let r1 := materialize gen oracle (str "7") none ad (str "out") emptySeen
     materialize gen oracle (str "7") none ad (str "out") r1.2.1 =
       (r1.1, r1.2.1, 0) ∧ r1.2.2 = 2) :=
  ⟨C5_amended_idempotent_when_downloads_succeed (generate_filename md5stub)
      (fun _ => true) (str "7") none
      ⟨[str "https://c/i.png"],
       [str "https://h/a/mp4-360p-30fp-crf28/v.mp4",
        str "https://h/a/mp4-720p-30fp-crf28/v.mp4"], []⟩
      (str "out") emptySeen
      (fun u h => Option.noConfusion h) (fun u _ => rfl) (fun u _ => rfl)
      (fun u _ => rfl),
   by decide⟩

/-- C5 counterexample: an image whose download fails is not registered in
the cache, so the second materialization of the same record performs a
download attempt again (1, not 0), falsifying "materializing a second time
performs zero additional downloads" as stated for arbitrary records. -/
theorem C5_counterexample_failed_download_reattempted :
    (let gen := generate_filename md5stub
     let oracle : Str → Bool := fun _ => false
     let ad : AssetsRec := ⟨[str "https://c/i.png"], [], []⟩
     let r1 := materialize gen oracle (str "7") none ad (str "out") emptySeen
     let r2 := materialize gen oracle (str "7") none ad (str "out") r1.2.1
     r1.2.2 = 1 ∧ r2.2.2 = 1 ∧ ¬ r2.2.2 = 0) := by
  refine ⟨by decide, by decide, by decide⟩

/-- `matchPat1` fails whenever the literal-prefix test fails. -/
theorem matchPat1_none_of_not_prefix {s : Str}
    (h : isPrefixB (str "/mp4-") s = false) : matchPat1 s = none := by
  simp [matchPat1, h]

/-- A nonempty list is not `isEmpty`. -/
theorem isEmpty_eq_false_of_ne_nil {l : Str} (h : l ≠ []) : l.isEmpty = false := by
  cases l with
  | nil => exact absurd rfl h
  | cons c t => rfl

/-- `matchPat1` consumes the whole encoding-profile segment of the
canonical rendition path and resumes right after its trailing slash. -/
theorem matchPat1_rendition (d m x : Str)
    (hd : d ≠ []) (hm : m ≠ []) (hx : x ≠ [])
    (hdg : ∀ c ∈ d, c.isDigit = true)
    (hmg : ∀ c ∈ m, c.isDigit = true)
    (hxg : ∀ c ∈ x, goodProfChar c = true) :
    matchPat1 (str "/mp4-" ++ (d ++ (str "p-" ++ (m ++ (str "fp-" ++
      (x ++ str "/f.mp4")))))) = some (str "f.mp4") := by
  have m1 : isPrefixB (str "/mp4-") (str "/mp4-" ++ (d ++ (str "p-" ++
      (m ++ (str "fp-" ++ (x ++ str "/f.mp4")))))) = true :=
    isPrefixB_append_self _ _
  have m2 : List.drop 5 (str "/mp4-" ++ (d ++ (str "p-" ++ (m ++ (str "fp-" ++
      (x ++ str "/f.mp4")))))) = d ++ (str "p-" ++ (m ++ (str "fp-" ++
      (x ++ str "/f.mp4")))) := by
    rw [show (5 : Nat) = (str "/mp4-" : Str).length from by decide]
    exact List.drop_left _ _
  have m3 : List.takeWhile Char.isDigit (d ++ (str "p-" ++ (m ++ (str "fp-" ++
      (x ++ str "/f.mp4"))))) = d := by
    rw [show (str "p-" : Str) = 'p' :: str "-" from by decide]
    simp only [List.cons_append]
    exact takeWhile_append_stop Char.isDigit d 'p'
      (str "-" ++ (m ++ (str "fp-" ++ (x ++ str "/f.mp4")))) hdg (by decide)
  have m4 : d.isEmpty = false := isEmpty_eq_false_of_ne_nil hd
  have m5 : List.drop d.length (d ++ (str "p-" ++ (m ++ (str "fp-" ++
      (x ++ str "/f.mp4"))))) = str "p-" ++ (m ++ (str "fp-" ++
      (x ++ str "/f.mp4"))) := List.drop_left _ _
  have m6 : isPrefixB (str "p-") (str "p-" ++ (m ++ (str "fp-" ++
      (x ++ str "/f.mp4")))) = true := isPrefixB_append_self _ _
  have m7 : List.drop 2 (str "p-" ++ (m ++ (str "fp-" ++ (x ++ str "/f.mp4")))) =
      m ++ (str "fp-" ++ (x ++ str "/f.mp4")) := by
    rw [show (2 : Nat) = (str "p-" : Str).length from by decide]
    exact List.drop_left _ _
  have m8 : List.takeWhile Char.isDigit (m ++ (str "fp-" ++
      (x ++ str "/f.mp4"))) = m := by
    rw [show (str "fp-" : Str) = 'f' :: str "p-" from by decide]
    simp only [List.cons_append]
    exact takeWhile_append_stop Char.isDigit m 'f'
      (str "p-" ++ (x ++ str "/f.mp4")) hmg (by decide)
  have m9 : m.isEmpty = false := isEmpty_eq_false_of_ne_nil hm
  have m10 : List.drop m.length (m ++ (str "fp-" ++ (x ++ str "/f.mp4"))) =
      str "fp-" ++ (x ++ str "/f.mp4") := List.drop_left _ _
  have m11 : isPrefixB (str "fp-") (str "fp-" ++ (x ++ str "/f.mp4")) = true :=
    isPrefixB_append_self _ _
  have m12 : List.drop 3 (str "fp-" ++ (x ++ str "/f.mp4")) =
      x ++ str "/f.mp4" := by
    rw [show (3 : Nat) = (str "fp-" : Str).length from by decide]
    exact List.drop_left _ _
  have m13 : List.takeWhile (fun c => decide (c ≠ '/')) (x ++ str "/f.mp4") =
      x := by
    rw [show (str "/f.mp4" : Str) = '/' :: str "f.mp4" from by decide]
    exact takeWhile_append_stop (fun c => decide (c ≠ '/')) x '/' (str "f.mp4")
      (fun c hc => by
        have h1 := (goodProfChar_spec c (hxg c hc)).1
        simpa using h1)
      (by decide)
  have m14 : x.isEmpty = false := isEmpty_eq_false_of_ne_nil hx
  have m15 : List.drop x.length (x ++ str "/f.mp4") = str "/f.mp4" :=
    List.drop_left _ _
  have m16 : isPrefixB (str "/") (str "/f.mp4") = true := by decide
  have m17 : List.drop 1 (str "/f.mp4") = str "f.mp4" := by decide
  simp only [matchPat1, m1, m2, m3, m4, m5, m6, m7, m8, m9, m10, m11, m12, m13,
    m14, m15, m16, m17, if_true, if_false, Bool.false_eq_true, eq_self_iff_true]

/-- The three-pattern strip of `_get_video_base_path` reduces the canonical
rendition path to `/v/f.mp4`. -/
theorem strip_rendPath (d m x : Str)
    (hd : d ≠ []) (hm : m ≠ []) (hx : x ≠ [])
    (hdg : ∀ c ∈ d, c.isDigit = true)
    (hmg : ∀ c ∈ m, c.isDigit = true)
    (hxg : ∀ c ∈ x, goodProfChar c = true) :
    reSub matchPat3 '-' (reSub matchPat2 '/'
      (reSub matchPat1 '/' (rendPath d m x))) = str "/v/f.mp4" := by
  have hre : rendPath d m x =
      '/' :: 'v' :: '/' :: (str "mp4-" ++ (d ++ (str "p-" ++ (m ++
        (str "fp-" ++ (x ++ str "/f.mp4")))))) := by
    simp only [rendPath]
    rw [show (str "/v/mp4-" : Str) = '/' :: 'v' :: '/' :: str "mp4-" from
      by decide]
    simp [List.append_assoc]
  have h1 : matchPat1 ('/' :: 'v' :: '/' :: (str "mp4-" ++ (d ++ (str "p-" ++
      (m ++ (str "fp-" ++ (x ++ str "/f.mp4"))))))) = none := by
    apply matchPat1_none_of_not_prefix
    rw [show (str "/mp4-" : Str) = '/' :: 'm' :: str "p4-" from by decide]
    simp only [isPrefixB]
    rw [show (('m' == 'v') : Bool) = false from by decide]
    simp
  have h2 : matchPat1 ('v' :: '/' :: (str "mp4-" ++ (d ++ (str "p-" ++
      (m ++ (str "fp-" ++ (x ++ str "/f.mp4"))))))) = none := by
    apply matchPat1_none_of_not_prefix
    rw [show (str "/mp4-" : Str) = '/' :: str "mp4-" from by decide]
    simp only [isPrefixB]
    rw [show (('/' == 'v') : Bool) = false from by decide]
    simp
  have h3 : matchPat1 ('/' :: (str "mp4-" ++ (d ++ (str "p-" ++ (m ++
      (str "fp-" ++ (x ++ str "/f.mp4"))))))) = some (str "f.mp4") := by
    have hs : ('/' :: (str "mp4-" ++ (d ++ (str "p-" ++ (m ++ (str "fp-" ++
        (x ++ str "/f.mp4")))))) : Str) =
        str "/mp4-" ++ (d ++ (str "p-" ++ (m ++ (str "fp-" ++
          (x ++ str "/f.mp4"))))) := by
      rw [show (str "/mp4-" : Str) = '/' :: str "mp4-" from by decide]
      simp
    rw [hs]
    exact matchPat1_rendition d m x hd hm hx hdg hmg hxg
  have hsub1 : reSub matchPat1 '/' (rendPath d m x) = str "/v/f.mp4" := by
    simp only [reSub]
    rw [hre]
    have hlen : (('/' :: 'v' :: '/' :: (str "mp4-" ++ (d ++ (str "p-" ++
        (m ++ (str "fp-" ++ (x ++ str "/f.mp4"))))))) : Str).length =
        ((str "mp4-" ++ (d ++ (str "p-" ++ (m ++ (str "fp-" ++
          (x ++ str "/f.mp4")))))).length + 1 + 1) + 1 := by
      simp
    rw [hlen]
    rw [reSubFuel_step_none matchPat1 '/'
      ((str "mp4-" ++ (d ++ (str "p-" ++ (m ++ (str "fp-" ++
        (x ++ str "/f.mp4")))))).length + 1 + 1)
      '/' ('v' :: '/' :: (str "mp4-" ++ (d ++ (str "p-" ++ (m ++ (str "fp-" ++
        (x ++ str "/f.mp4"))))))) h1]
    rw [reSubFuel_step_none matchPat1 '/'
      ((str "mp4-" ++ (d ++ (str "p-" ++ (m ++ (str "fp-" ++
        (x ++ str "/f.mp4")))))).length + 1)
      'v' ('/' :: (str "mp4-" ++ (d ++ (str "p-" ++ (m ++ (str "fp-" ++
        (x ++ str "/f.mp4"))))))) h2]
    rw [reSubFuel_step_some matchPat1 '/'
      ((str "mp4-" ++ (d ++ (str "p-" ++ (m ++ (str "fp-" ++
        (x ++ str "/f.mp4")))))).length)
      '/' (str "mp4-" ++ (d ++ (str "p-" ++ (m ++ (str "fp-" ++
        (x ++ str "/f.mp4")))))) (str "f.mp4") h3]
    have hno : ∀ i, i < (str "f.mp4" : Str).length →
        matchPat1 (List.drop i (str "f.mp4")) = none := by decide
    have hge : (str "f.mp4" : Str).length ≤
        (str "mp4-" ++ (d ++ (str "p-" ++ (m ++ (str "fp-" ++
          (x ++ str "/f.mp4")))))).length := by
      have h4 : (str "mp4-" : Str).length = 4 := by decide
      have h5 : (str "f.mp4" : Str).length = 5 := by decide
      have h6 : (str "/f.mp4" : Str).length = 6 := by decide
      have h7 : (str "p-" : Str).length = 2 := by decide
      have h8 : (str "fp-" : Str).length = 3 := by decide
      simp only [List.length_append]
      omega
    rw [reSubFuel_id_of_nomatch matchPat1 '/' (str "f.mp4")
      ((str "mp4-" ++ (d ++ (str "p-" ++ (m ++ (str "fp-" ++
        (x ++ str "/f.mp4")))))).length) hno hge]
    decide
  rw [hsub1]
  decide

/-- On the canonical rendition family `_get_video_base_path` returns the
common base `https://h/v/f.mp4`, independent of resolution digits,
frame-rate digits and quality tail. -/
theorem get_video_base_path_mkRendition (d m x : Str)
    (hd : d ≠ []) (hm : m ≠ []) (hx : x ≠ [])
    (hdall : d.all Char.isDigit = true)
    (hmall : m.all Char.isDigit = true)
    (hxall : x.all goodProfChar = true) :
    get_video_base_path (mkRendition d m x) = str "https://h/v/f.mp4" := by
  have hdg : ∀ c ∈ d, c.isDigit = true := by
    rw [List.all_eq_true] at hdall
    exact hdall
  have hmg : ∀ c ∈ m, c.isDigit = true := by
    rw [List.all_eq_true] at hmall
    exact hmall
  have hxg : ∀ c ∈ x, goodProfChar c = true := by
    rw [List.all_eq_true] at hxall
    exact hxall
  simp only [get_video_base_path, pyUrlparse_mkRendition d m x hdall hmall hxall]
  rw [strip_rendPath d m x hd hm hx hdg hmg hxg]
  decide

/-- One step of `bestOf`. -/
theorem bestOf_cons (u v : Str) (vs : List Str) :
    bestOf u (v :: vs) = bestOf (if qualKey u < qualKey v then v else u) vs :=
  rfl

/-- `bestOf` returns the first element of maximal quality key: the input
splits around the champion, every element's key is bounded by the
champion's, and everything before the champion is strictly smaller. -/
theorem bestOf_first_argmax :
    ∀ (us : List Str) (u : Str), ∃ pre post,
      u :: us = pre ++ bestOf u us :: post ∧
      (∀ w ∈ u :: us, qualKey w ≤ qualKey (bestOf u us)) ∧
      (∀ w ∈ pre, qualKey w < qualKey (bestOf u us)) := by
  intro us
  induction us with
  | nil =>
    intro u
    exact ⟨[], [], by simp [bestOf], by simp [bestOf], by simp⟩
  | cons v vs ih =>
    intro u
    rw [bestOf_cons]
    by_cases hc : qualKey u < qualKey v
    · rw [if_pos hc]
      obtain ⟨pre, post, hsplit, hub, hlt⟩ := ih v
      have hvb : qualKey v ≤ qualKey (bestOf v vs) :=
        hub v (List.mem_cons_self v vs)
      refine ⟨u :: pre, post, ?_, ?_, ?_⟩
      · exact congrArg (List.cons u) hsplit
      · intro w hw
        rcases List.mem_cons.mp hw with rfl | hw2
        · exact le_trans (le_of_lt hc) hvb
        · exact hub w hw2
      · intro w hw
        rcases List.mem_cons.mp hw with rfl | hw2
        · exact lt_of_lt_of_le hc hvb
        · exact hlt w hw2
    · rw [if_neg hc]
      have hvu : qualKey v ≤ qualKey u := le_of_not_lt hc
      obtain ⟨pre, post, hsplit, hub, hlt⟩ := ih u
      cases pre with
      | nil =>
        simp only [List.nil_append] at hsplit
        obtain ⟨hbu, hpost⟩ := List.cons.inj hsplit
        refine ⟨[], v :: post, ?_, ?_, by simp⟩
        · rw [List.nil_append, ← hbu, ← hpost]
        · intro w hw
          rcases List.mem_cons.mp hw with rfl | hw2
          · exact hub w (List.mem_cons_self w vs)
          rcases List.mem_cons.mp hw2 with rfl | hw3
          · rw [← hbu]
            exact hvu
          · exact hub w (List.mem_cons_of_mem u hw3)
      | cons p0 pr =>
        rw [List.cons_append] at hsplit
        obtain ⟨hp0, hvs⟩ := List.cons.inj hsplit
        have hul : qualKey u < qualKey (bestOf u vs) := by
          have h0 := hlt p0 (List.mem_cons_self p0 pr)
          rw [← hp0] at h0
          exact h0
        refine ⟨u :: v :: pr, post, ?_, ?_, ?_⟩
        · simp only [List.cons_append]
          rw [← hvs]
        · intro w hw
          rcases List.mem_cons.mp hw with rfl | hw2
          · exact le_of_lt hul
          rcases List.mem_cons.mp hw2 with rfl | hw3
          · exact le_trans hvu (le_of_lt hul)
          · exact hub w (List.mem_cons_of_mem u hw3)
        · intro w hw
          rcases List.mem_cons.mp hw with rfl | hw2
          · exact hul
          rcases List.mem_cons.mp hw2 with rfl | hw3
          · exact lt_of_le_of_lt hvu hul
          · exact hlt w (List.mem_cons_of_mem p0 hw3)

/-- C3 (corrected): (1) the video identity ignores query string and
fragment — two URLs parsing to the same scheme, netloc and path have the
same identity; (2) the whole canonical rendition family
`/mp4-<d>p-<m>fp-<x>/` collapses to the single identity
`https://h/v/f.mp4`, so renditions differing only in the embedded
encoding-profile segment share one identity; (3) best-of selection picks
the first URL whose quality key — the largest `(\d+)p` match over the
WHOLE URL string, defaulting to 0 — is maximal; the original claim's
"resolution marker in the path" reading is refuted by the counterexample. -/
theorem C3_amended_video_identity_best_of :
    (∀ u1 u2 p1 p2, pyUrlparse u1 = Except.ok p1 →
      pyUrlparse u2 = Except.ok p2 →
      p1.scheme = p2.scheme → p1.netloc = p2.netloc → p1.path = p2.path →
      assetIdentity .video u1 = assetIdentity .video u2) ∧
    (∀ d m x, d ≠ [] → m ≠ [] → x ≠ [] →
      d.all Char.isDigit = true → m.all Char.isDigit = true →
      x.all goodProfChar = true →
      assetIdentity .video (mkRendition d m x) = str "https://h/v/f.mp4") ∧
    (∀ (u : Str) (us : List Str), ∃ pre post,
      u :: us = pre ++ bestOf u us :: post ∧
      (∀ w ∈ u :: us, qualKey w ≤ qualKey (bestOf u us)) ∧
      (∀ w ∈ pre, qualKey w < qualKey (bestOf u us))) := by
  refine ⟨?_, ?_, ?_⟩
  · intro u1 u2 p1 p2 h1 h2 hs hn hp
    simp only [assetIdentity, get_video_base_path, h1, h2, hs, hn, hp]
  · intro d m x hd hm hx hdall hmall hxall
    simpa [assetIdentity] using
      get_video_base_path_mkRendition d m x hd hm hx hdall hmall hxall
  · intro u us
    exact bestOf_first_argmax us u

/-- Witness for the corrected C3: two concrete renditions of the family
(`720p` and `360p` at `30fp`, tail `crf28`) both collapse to the identity
`https://h/v/f.mp4`. -/
theorem C3_amended_witness :
    assetIdentity .video (mkRendition (str "720") (str "30") (str "crf28")) =
        str "https://h/v/f.mp4" ∧
    assetIdentity .video (mkRendition (str "360") (str "30") (str "crf28")) =
        str "https://h/v/f.mp4" :=
  ⟨C3_amended_video_identity_best_of.2.1 (str "720") (str "30") (str "crf28")
      (by decide) (by decide) (by decide) (by decide) (by decide) (by decide),
   C3_amended_video_identity_best_of.2.1 (str "360") (str "30") (str "crf28")
      (by decide) (by decide) (by decide) (by decide) (by decide) (by decide)⟩

end Scrapping
